import Mathlib

/-!
# Verification of the SQL cost-optimization scanner and fixer

Shallow embedding of the two Python source files of the repository
(`script/sql_cost_optimizer.py` and `script/optimizer_2.py`) and proofs
about the scanner (Detector Engine) and the in-place fixer (Rewriter).

Text is modelled as `List Char` (`Str`).  The regular-expression patterns
of the scanner are compiled, construct by construct, into a small
backtracking matcher (`RE` / `ends`) that follows Python `re` semantics for
the constructs the patterns use: case-insensitive literals, character
classes `\s`, `\w`, `\d`, `.` (with `re.DOTALL`), `[^x]`, greedy `*`, `+`
and `(...)?` with backtracking, ordered alternation, negative and positive
lookahead, word boundary `\b`, and end anchor `$` (without `re.MULTILINE`).
Candidate match endpoints are produced in Python's backtracking preference
order, so the first candidate is the endpoint Python's engine selects, and
`pyFinditer` mirrors `re.finditer` (leftmost, non-overlapping scanning).
-/

abbrev Str := List Char

def s2l (s : String) : Str := s.data

/-- ASCII upper-casing, as applied by case-insensitive matching and
`str.upper` on the ASCII SQL text the program handles. -/
def pyUpper (c : Char) : Char :=
  if 'a' ≤ c ∧ c ≤ 'z' then Char.ofNat (c.toNat - 32) else c

/-- Case-insensitive character comparison (`re.IGNORECASE`). -/
def ciEq (a b : Char) : Bool := pyUpper a == pyUpper b

/-- Python's `\s` class (ASCII part). -/
def isWsCh (c : Char) : Bool :=
  c == ' ' || c == '\t' || c == '\n' || c == '\r' || c == '\x0b' || c == '\x0c'

/-- Python's `\w` class (ASCII part). -/
def isWordCh (c : Char) : Bool :=
  ('a' ≤ c && c ≤ 'z') || ('A' ≤ c && c ≤ 'Z') || ('0' ≤ c && c ≤ '9') || c == '_'

/-- Python's `\d` class (ASCII part). -/
def isDigitCh (c : Char) : Bool := '0' ≤ c && c ≤ '9'

inductive CharClass where
  | ws | word | digit | any | notCh (c : Char)
deriving DecidableEq, Repr

def CharClass.test : CharClass → Char → Bool
  | .ws, c => isWsCh c
  | .word, c => isWordCh c
  | .digit, c => isDigitCh c
  | .any, _ => true
  | .notCh d, c => c != d

/-- Regular-expression fragments used by the source's patterns. -/
inductive RE where
  | eps
  | lit (s : Str)
  | cls (c : CharClass)
  | star (c : CharClass)
  | plus (c : CharClass)
  | opt (r : RE)
  | alt (r₁ r₂ : RE)
  | seq (r₁ r₂ : RE)
  | nla (r : RE)
  | pla (r : RE)
  | wb
  | eol
deriving DecidableEq, Repr

def reSeq (l : List RE) : RE := l.foldr RE.seq RE.eps

def litS (s : String) : RE := RE.lit s.data

/-- Case-insensitively, does `l` occur in `cs` starting at index `i`? -/
def ciPrefixAt (cs : Str) (i : Nat) : Str → Bool
  | [] => true
  | d :: ds =>
    match cs[i]? with
    | some c => ciEq c d && ciPrefixAt cs (i + 1) ds
    | none => false

/-- Length of the maximal run of characters of class `cl` starting at `i`. -/
def runLen (cs : Str) (cl : CharClass) (i : Nat) : Nat :=
  ((cs.drop i).takeWhile cl.test).length

def wordBefore (cs : Str) (i : Nat) : Bool :=
  match i with
  | 0 => false
  | j + 1 =>
    match cs[j]? with
    | some c => isWordCh c
    | none => false

def wordAt (cs : Str) (i : Nat) : Bool :=
  match cs[i]? with
  | some c => isWordCh c
  | none => false

/-- Python's `\b`: a word character on exactly one side of the position. -/
def isWordB (cs : Str) (i : Nat) : Bool := wordBefore cs i != wordAt cs i

/-- All candidate end positions of a match of `r` in `cs` starting at `i`,
in Python's backtracking preference order (greedy first, alternatives in
written order).  The head of the list is the endpoint Python selects. -/
def ends : RE → Str → Nat → List Nat
  | .eps, _, i => [i]
  | .lit s, cs, i => if ciPrefixAt cs i s then [i + s.length] else []
  | .cls cl, cs, i =>
    match cs[i]? with
    | some c => if cl.test c then [i + 1] else []
    | none => []
  | .star cl, cs, i => (List.range (runLen cs cl i + 1)).reverse.map (i + ·)
  | .plus cl, cs, i => (List.range (runLen cs cl i)).reverse.map (i + 1 + ·)
  | .opt r, cs, i => ends r cs i ++ [i]
  | .alt r₁ r₂, cs, i => ends r₁ cs i ++ ends r₂ cs i
  | .seq r₁ r₂, cs, i => (ends r₁ cs i).flatMap (ends r₂ cs)
  | .nla r, cs, i => if ends r cs i = [] then [i] else []
  | .pla r, cs, i => if ends r cs i = [] then [] else [i]
  | .wb, cs, i => if isWordB cs i then [i] else []
  | .eol, cs, i =>
    if i = cs.length ∨ (i + 1 = cs.length ∧ cs[i]? = some '\n') then [i] else []

/-- The match (end position) Python's engine produces at start `i`, if any. -/
def matchAt (r : RE) (cs : Str) (i : Nat) : Option Nat := (ends r cs i).head?

/-- Models `re.finditer`: leftmost non-overlapping matches, scanning left to right,
resuming after each match's end. -/
def finditerAux (r : RE) (cs : Str) : Nat → Nat → List (Nat × Nat)
  | 0, _ => []
  | fuel + 1, i =>
    if i > cs.length then []
    else
      match matchAt r cs i with
      | none => finditerAux r cs fuel (i + 1)
      | some e => (i, e) :: finditerAux r cs fuel (max e (i + 1))

def pyFinditer (r : RE) (cs : Str) : List (Nat × Nat) :=
  finditerAux r cs (cs.length + 1) 0

-- smoke tests for the matcher (Python-checked behaviours)
example : matchAt (reSeq [.wb, litS "SELECT", .plus .ws, litS "*", .wb])
    (s2l "SELECT * FROM t") 0 = none := by decide
example : matchAt (reSeq [.wb, litS "SELECT", .plus .ws, litS "*", .wb])
    (s2l "SELECT *FROM t") 0 = some 8 := by decide
example : matchAt (reSeq [.wb, litS "UNION", .plus .ws, .nla (reSeq [litS "ALL", .wb])])
    (s2l "A UNION  ALL B") 2 = some 8 := by decide
example : matchAt (reSeq [.wb, litS "UNION", .plus .ws, .nla (reSeq [litS "ALL", .wb])])
    (s2l "A UNION ALL B") 2 = none := by decide
example : matchAt (reSeq [.wb, litS "UNION", .plus .ws, .nla (reSeq [litS "ALL", .wb])])
    (s2l "SELECT A UNION") 9 = none := by decide

/-!
## The pattern catalog (`_initialize_patterns` in `sql_cost_optimizer.py`)

Each entry compiles the source's regex literally; severities, descriptions,
cost impacts and fix templates are copied verbatim.
-/

structure PatternInfo where
  name : Str
  re : RE
  severity : Str
  description : Str
  cost_impact : Str
  fix_template : Str
deriving DecidableEq, Repr

def wsP : RE := .plus .ws
def wsS : RE := .star .ws

/-- Models `\bSELECT\s+\*\b` -/
def selectStarRE : RE := reSeq [.wb, litS "SELECT", wsP, litS "*", .wb]

/-- Models `(transactions|accounts|customers|orders|payments|audit_log|events)` -/
def tableAltRE : RE :=
  .alt (litS "transactions") (.alt (litS "accounts") (.alt (litS "customers")
    (.alt (litS "orders") (.alt (litS "payments") (.alt (litS "audit_log") (litS "events"))))))

/-- Models `\bFROM\s+(\w+\.)?(transactions|...)\b(?!.*\bWHERE\b)` with `re.DOTALL` -/
def missingWhereRE : RE :=
  reSeq [.wb, litS "FROM", wsP, .opt (reSeq [.plus .word, litS "."]), tableAltRE, .wb,
    .nla (reSeq [.star .any, .wb, litS "WHERE", .wb])]

/-- Models `\bSELECT\s+DISTINCT\b(?!.*\bGROUP\s+BY\b)` -/
def distinctRE : RE :=
  reSeq [.wb, litS "SELECT", wsP, litS "DISTINCT", .wb,
    .nla (reSeq [.star .any, .wb, litS "GROUP", wsP, litS "BY", .wb])]

/-- Models `\bORDER\s+BY\b(?!.*\bLIMIT\b)(?!.*\bTOP\b)` -/
def orderRE : RE :=
  reSeq [.wb, litS "ORDER", wsP, litS "BY", .wb,
    .nla (reSeq [.star .any, .wb, litS "LIMIT", .wb]),
    .nla (reSeq [.star .any, .wb, litS "TOP", .wb])]

/-- Models `\bUNION\s+(?!ALL\b)` -/
def unionRE : RE := reSeq [.wb, litS "UNION", wsP, .nla (reSeq [litS "ALL", .wb])]

/-- Models `(OR\s+REPLACE\s+)?` -/
def orReplaceOpt : RE := .opt (reSeq [litS "OR", wsP, litS "REPLACE", wsP])

/-- Models `\b(CREATE\s+(OR\s+REPLACE\s+)?TABLE|DROP\s+TABLE)\b` -/
def createDropRE : RE :=
  reSeq [.wb,
    .alt (reSeq [litS "CREATE", wsP, orReplaceOpt, litS "TABLE"])
         (reSeq [litS "DROP", wsP, litS "TABLE"]),
    .wb]

/-- Models `\bCREATE\s+(OR\s+REPLACE\s+)?(FUNCTION|PROCEDURE)\b` -/
def createFuncRE : RE :=
  reSeq [.wb, litS "CREATE", wsP, orReplaceOpt,
    .alt (litS "FUNCTION") (litS "PROCEDURE"), .wb]

/-- Models `\bVARCHAR\s*(?!\s*\(\s*\d+\s*\))` -/
def varcharRE : RE :=
  reSeq [.wb, litS "VARCHAR", wsS,
    .nla (reSeq [wsS, litS "(", wsS, .plus .digit, wsS, litS ")"])]

/-- Models `\(\s*SELECT.*\(\s*SELECT.*FROM.*\).*FROM.*\)` with `re.DOTALL` -/
def nestedRE : RE :=
  reSeq [litS "(", wsS, litS "SELECT", .star .any, litS "(", wsS, litS "SELECT",
    .star .any, litS "FROM", .star .any, litS ")", .star .any, litS "FROM",
    .star .any, litS ")"]

/-- Models `\b(DECLARE.*CURSOR|FOR.*CURSOR|OPEN\s+CURSOR|FETCH\s+FROM)\b` -/
def cursorRE : RE :=
  reSeq [.wb,
    .alt (reSeq [litS "DECLARE", .star .any, litS "CURSOR"])
      (.alt (reSeq [litS "FOR", .star .any, litS "CURSOR"])
        (.alt (reSeq [litS "OPEN", wsP, litS "CURSOR"])
          (reSeq [litS "FETCH", wsP, litS "FROM"]))),
    .wb]

/-- Models `INSERT\s+INTO.*VALUES\s*\([^)]*\)\s*;.*INSERT\s+INTO` -/
def insertsRE : RE :=
  reSeq [litS "INSERT", wsP, litS "INTO", .star .any, litS "VALUES", wsS, litS "(",
    .star (.notCh ')'), litS ")", wsS, litS ";", .star .any, litS "INSERT", wsP,
    litS "INTO"]

def patterns : List PatternInfo := [
  { name := s2l "select_star", re := selectStarRE, severity := s2l "HIGH",
    description := s2l "SELECT * queries scan unnecessary columns",
    cost_impact := s2l "300-500% increased I/O costs",
    fix_template := s2l "-- SELECT * replaced with specific columns\nSELECT \n    column1,\n    column2,\n    column3\nFROM {table}" },
  { name := s2l "missing_where_large_table", re := missingWhereRE, severity := s2l "HIGH",
    description := s2l "Query on large table without WHERE clause",
    cost_impact := s2l "Full table scan - extremely expensive",
    fix_template := s2l "-- Add WHERE clause to filter data\n-- WHERE created_date >= DATEADD(day, -30, CURRENT_DATE())" },
  { name := s2l "unnecessary_distinct", re := distinctRE, severity := s2l "MEDIUM",
    description := s2l "DISTINCT without GROUP BY causes expensive deduplication",
    cost_impact := s2l "50-200% increased processing time",
    fix_template := s2l "-- Consider using GROUP BY instead of DISTINCT for aggregations" },
  { name := s2l "order_without_limit", re := orderRE, severity := s2l "MEDIUM",
    description := s2l "ORDER BY without LIMIT sorts entire result set",
    cost_impact := s2l "Unnecessary sorting of large datasets",
    fix_template := s2l "-- Add LIMIT to ORDER BY\n-- ORDER BY column_name LIMIT 1000" },
  { name := s2l "union_instead_union_all", re := unionRE, severity := s2l "MEDIUM",
    description := s2l "UNION performs unnecessary deduplication",
    cost_impact := s2l "20-100% increased processing time",
    fix_template := s2l "-- Use UNION ALL if duplicates are acceptable\nUNION ALL" },
  { name := s2l "create_drop_table", re := createDropRE, severity := s2l "HIGH",
    description := s2l "Creating/dropping tables in ETL causes metadata overhead",
    cost_impact := s2l "Time Travel storage costs + performance degradation",
    fix_template := s2l "-- Use permanent staging tables with TRUNCATE instead\n-- TRUNCATE TABLE staging.temp_table;" },
  { name := s2l "create_function_procedure", re := createFuncRE, severity := s2l "HIGH",
    description := s2l "Creating functions/procedures in ETL causes compilation overhead",
    cost_impact := s2l "Metadata bloat + compilation time on every run",
    fix_template := s2l "-- Deploy functions during release, not in ETL\n-- Use inline SQL logic instead" },
  { name := s2l "varchar_without_size", re := varcharRE, severity := s2l "LOW",
    description := s2l "VARCHAR without size limit wastes storage",
    cost_impact := s2l "Higher storage costs",
    fix_template := s2l "-- Specify appropriate VARCHAR size\nVARCHAR(100)  -- Adjust size as needed" },
  { name := s2l "nested_subqueries", re := nestedRE, severity := s2l "MEDIUM",
    description := s2l "Deeply nested subqueries hurt performance",
    cost_impact := s2l "Poor query optimization",
    fix_template := s2l "-- Use CTEs (WITH clauses) for better readability and performance\nWITH subquery1 AS (\n    SELECT ...\n)" },
  { name := s2l "cursor_usage", re := cursorRE, severity := s2l "HIGH",
    description := s2l "Cursor-based row-by-row processing is extremely inefficient",
    cost_impact := s2l "Thousands of times slower than set-based operations",
    fix_template := s2l "-- Use set-based operations instead\n-- MERGE, INSERT, UPDATE with JOINs" },
  { name := s2l "multiple_single_inserts", re := insertsRE, severity := s2l "MEDIUM",
    description := s2l "Multiple single INSERT statements are inefficient",
    cost_impact := s2l "Multiple small transactions vs efficient batching",
    fix_template := s2l "-- Use bulk INSERT or multi-value INSERT\nINSERT INTO table VALUES (val1), (val2), (val3);" }
]

/-!
## Scanner data model and `_scan_sql_file`
-/

/-- The `SQLIssue` dataclass. -/
structure SQLIssue where
  file_path : Str
  line_number : Nat
  issue_type : Str
  severity : Str
  description : Str
  original_line : Str
  suggested_fix : Str
  estimated_cost_impact : Str
deriving DecidableEq, Repr

def countNl (cs : Str) : Nat := cs.countP (· == '\n')

/-- Python `content.split('\n')`. -/
def pySplitNl : Str → List Str
  | [] => [[]]
  | c :: rest =>
    if c = '\n' then [] :: pySplitNl rest
    else
      match pySplitNl rest with
      | [] => [[c]]
      | l :: ls => (c :: l) :: ls

/-- Python `str.strip()` (whitespace at both ends removed). -/
def pyStrip (cs : Str) : Str :=
  ((cs.dropWhile isWsCh).reverse.dropWhile isWsCh).reverse

/-- Scan `l` (the suffix of the text starting at absolute index `j`) for
the first occurrence of `c`. -/
def findChAux (c : Char) : Str → Nat → Option Nat
  | [], _ => none
  | d :: rest, j => if d = c then some j else findChAux c rest (j + 1)

/-- First index `j ≥ i` with `cs[j] = c` (Python `str.find(c, i)`). -/
def findCharFrom (cs : Str) (c : Char) (i : Nat) : Option Nat :=
  findChAux c (cs.drop i) i

/-- Last occurrence of `c` in `l` (offset by `j`), carried in `acc`. -/
def findChLast (c : Char) : Str → Nat → Option Nat → Option Nat
  | [], _, acc => acc
  | d :: rest, j, acc =>
    findChLast c rest (j + 1) (if d = c then some j else acc)

/-- Last index `j` with `j < pos` and `cs[j] = c` (Python `str.rfind(c, 0, pos)`). -/
def rfindCharBefore (cs : Str) (c : Char) (pos : Nat) : Option Nat :=
  findChLast c (cs.take pos) 0 none

/-- First index `j ≥ i` (absolute, with `l` the suffix of the text starting
at `i`) where the two-character string `a b` occurs. -/
def find2Aux (a b : Char) : Str → Nat → Option Nat
  | [], _ => none
  | [_], _ => none
  | c :: d :: rest, j =>
    if c = a ∧ d = b then some j else find2Aux a b (d :: rest) (j + 1)

/-- Python `str.find(ab, i)` for a two-character needle. -/
def find2From (cs : Str) (a b : Char) (i : Nat) : Option Nat :=
  find2Aux a b (cs.drop i) i

/-- Last occurrence of the two-character string `a b` in `l`, offset by `j`. -/
def find2Last (a b : Char) : Str → Nat → Option Nat → Option Nat
  | [], _, acc => acc
  | [_], _, acc => acc
  | c :: d :: rest, j, acc =>
    find2Last a b (d :: rest) (j + 1) (if c = a ∧ d = b then some j else acc)

/-- Python `str.rfind(ab, 0, pos)` for a two-character needle: last
occurrence lying entirely before index `pos`. -/
def rfind2Before (cs : Str) (a b : Char) (pos : Nat) : Option Nat :=
  find2Last a b (cs.take pos) 0 none

/-- Models `line_start = content.rfind('\n', 0, position) + 1` (with `rfind`
returning `-1` when absent). -/
def lineStartOf (content : Str) (position : Nat) : Nat :=
  match rfindCharBefore content '\n' position with
  | some j => j + 1
  | none => 0

/-- The end of the slice `content[line_start:content.find('\n', position)]`:
a `find` result of `-1` makes the Python slice end at `len - 1`. -/
def lineEndOf (content : Str) (position : Nat) : Nat :=
  match findCharFrom content '\n' position with
  | some k => k
  | none => content.length - 1

/-- Models `line_content` of `_is_in_comment`. -/
def lineContentOf (content : Str) (position : Nat) : Str :=
  (content.take (lineEndOf content position)).drop (lineStartOf content position)

/-- Models `'--' in line_content and line_content.find('--') < (position - line_start)`. -/
def singleLineCommentCheck (content : Str) (position : Nat) : Bool :=
  match find2From (lineContentOf content position) '-' '-' 0 with
  | some q => decide (q < position - lineStartOf content position)
  | none => false

/-- The multi-line branch: the nearest `/*` fully before `position` whose
first following `*/` is absent or ends after `position`. -/
def blockCommentCheck (content : Str) (position : Nat) : Bool :=
  match rfind2Before content '/' '*' position with
  | none => false
  | some cstart =>
    match find2From content '*' '/' cstart with
    | none => true
    | some cend => decide (cend > position)

/-- Models `_is_in_comment`: is `position` inside a `--` line comment or an
unterminated-before-`position` `/* */` block comment? -/
def isInComment (content : Str) (position : Nat) : Bool :=
  singleLineCommentCheck content position || blockCommentCheck content position

/-- All `(pattern, start, end)` triples produced by running every pattern's
`re.finditer` over the file content, in the source's iteration order. -/
def allMatches (content : Str) : List (PatternInfo × Nat × Nat) :=
  patterns.flatMap (fun p => (pyFinditer p.re content).map (fun m => (p, m.1, m.2)))

/-- The matches that survive the comment check. -/
def keptMatches (content : Str) : List (PatternInfo × Nat × Nat) :=
  (allMatches content).filter (fun x => !(isInComment content x.2.1))

/-- The `SQLIssue` built for one match (line number, trimmed line text,
rule metadata), exactly as `_scan_sql_file` constructs it. -/
def mkIssue (path content : Str) (p : PatternInfo) (s : Nat) : SQLIssue :=
  let line_num := countNl (content.take s) + 1
  let lines := pySplitNl content
  { file_path := path
    line_number := line_num
    issue_type := p.name
    severity := p.severity
    description := p.description
    original_line :=
      if line_num ≤ lines.length then pyStrip (lines.getD (line_num - 1) []) else []
    suggested_fix := p.fix_template
    estimated_cost_impact := p.cost_impact }

/-- The findings `_scan_sql_file` produces for one file's content. -/
def scanFileIssues (path content : Str) : List SQLIssue :=
  (keptMatches content).map (fun x => mkIssue path content x.1 x.2.1)

/-- The session state of `SQLCostOptimizer`: accumulated issues, the
`stats` counters, and the console messages printed so far. -/
structure ScanState where
  issues : List SQLIssue
  files_scanned : Nat
  issues_found : Nat
  high_severity : Nat
  medium_severity : Nat
  low_severity : Nat
  log : List Str
deriving DecidableEq, Repr

def initState : ScanState :=
  { issues := [], files_scanned := 0, issues_found := 0,
    high_severity := 0, medium_severity := 0, low_severity := 0, log := [] }

/-- Models `self.stats[f"{severity.lower()}_severity"] += 1` for the three
severities the catalog uses. -/
def bumpSeverity (st : ScanState) (sev : Str) : ScanState :=
  if sev = s2l "HIGH" then { st with high_severity := st.high_severity + 1 }
  else if sev = s2l "MEDIUM" then { st with medium_severity := st.medium_severity + 1 }
  else if sev = s2l "LOW" then { st with low_severity := st.low_severity + 1 }
  else st

/-- Appending one issue: `self.issues.append(issue)` plus the two counter
updates. -/
def addIssue (st : ScanState) (iss : SQLIssue) : ScanState :=
  bumpSeverity
    { st with issues := st.issues ++ [iss], issues_found := st.issues_found + 1 }
    iss.severity

def errorReadingMsg (path : Str) : Str := s2l "Error reading " ++ path

/-- Models `_scan_sql_file`: bump `files_scanned`; if the file is unreadable
(`none`), print a warning and return; otherwise accumulate the findings. -/
def sqlScanFile (st : ScanState) (file : Str × Option Str) : ScanState :=
  let st := { st with files_scanned := st.files_scanned + 1 }
  match file.2 with
  | none => { st with log := st.log ++ [errorReadingMsg file.1] }
  | some content => (scanFileIssues file.1 content).foldl addIssue st

/-- Models `scan_directory`: a missing root directory (`none`) raises
`FileNotFoundError` before any file is scanned; otherwise every discovered
file is scanned in order. -/
def scanDirectory (dir : Option (List (Str × Option Str))) : Except Str ScanState :=
  match dir with
  | none => .error (s2l "ETL directory not found")
  | some files => .ok (files.foldl sqlScanFile initState)

-- smoke test: the worked example file of the spec
example :
    (scanFileIssues (s2l "q.sql") (s2l "SELECT * FROM customers;")).map
      (fun f => (f.issue_type, f.line_number, f.severity)) =
    [(s2l "missing_where_large_table", 1, s2l "HIGH")] := by decide

/-!
## The fixer (`_fix_file_issues` in `sql_cost_optimizer.py`)

`issues.sort(key=lambda x: x.line_number, reverse=True)` is Python's stable
sort in descending line order; it is modelled by an insertion sort that is
stable and sorts by the same key descending (a stable sort's output is
uniquely determined by the key order and the input order of equal keys).
-/

/-- Python `f.readlines()`: split after each newline, keeping the
terminators; a final unterminated segment is kept without one. -/
def pyReadlines : Str → List Str
  | [] => []
  | c :: rest =>
    if c = '\n' then ['\n'] :: pyReadlines rest
    else
      match pyReadlines rest with
      | [] => [[c]]
      | l :: ls => (c :: l) :: ls

/-- Descending-by-line-number order used by the fixer's sort. -/
def issueGE (a b : SQLIssue) : Prop := b.line_number ≤ a.line_number

instance : DecidableRel issueGE := fun _ _ => Nat.decLe _ _

instance : IsTotal SQLIssue issueGE :=
  ⟨fun x y => (Nat.le_total y.line_number x.line_number).elim Or.inl Or.inr⟩

instance : IsTrans SQLIssue issueGE :=
  ⟨fun _ _ _ h₁ h₂ => Nat.le_trans h₂ h₁⟩

def sortIssuesDesc (issues : List SQLIssue) : List SQLIssue :=
  List.insertionSort issueGE issues

/-- The three header comment lines prepended for one issue. -/
def fixHeader (iss : SQLIssue) : Str :=
  s2l "-- COST OPTIMIZATION FIX: " ++ iss.description ++
  s2l "\n-- Original line commented below, optimized version added\n-- Cost Impact: " ++
  iss.estimated_cost_impact ++ s2l "\n"

/-- Models `commented_original`: the original line re-emitted behind `-- ORIGINAL: `,
newline-terminated. -/
def commentedOriginal (orig : Str) : Str :=
  let co := s2l "-- ORIGINAL: " ++ orig
  if orig.getLast? = some '\n' then co else co ++ ['\n']

/-- The suggested fix is appended only when present and not itself pure
commentary (`startswith('--')`). -/
def suggestedPart (iss : SQLIssue) : Str :=
  if iss.suggested_fix ≠ [] ∧ iss.suggested_fix.take 2 ≠ s2l "--" then
    iss.suggested_fix ++ ['\n']
  else []

/-- The loop body of `_fix_file_issues`: replace the issue's line by the
header, the commented original and the suggested fix; a line index at or
past the end of the list is skipped. -/
def applyIssue (ls : List Str) (iss : SQLIssue) : List Str :=
  let line_idx := iss.line_number - 1
  if line_idx ≥ ls.length then ls
  else
    let original_line := ls.getD line_idx []
    ls.set line_idx (fixHeader iss ++ commentedOriginal original_line ++ suggestedPart iss)

/-- The rewritten line list after applying all issues in descending line
order. -/
def fixFileLines (ls : List Str) (issues : List SQLIssue) : List Str :=
  (sortIssuesDesc issues).foldl applyIssue ls

/-- What `_fix_file_issues` writes: first the backup file
(`''.join(lines)`) and then the target file (`f.writelines(lines)`) — both
from the already-mutated `lines` list. -/
def fixFileResult (ls : List Str) (issues : List SQLIssue) : Str × Str :=
  let newLines := fixFileLines ls issues
  (newLines.flatten, newLines.flatten)

/-!
## `optimizer_2.py`: `check_file` and `fix_single_file`
-/

structure O2Issue where
  line : Nat
  itype : Str
  description : Str
  content : Str
  severity : Str
deriving DecidableEq, Repr

def pyUpperStr (cs : Str) : Str := cs.map pyUpper

/-- Python's `sub in s` substring test. -/
def strContains (hay needle : Str) : Bool :=
  (List.range (hay.length + 1)).any (fun i => needle.isPrefixOf (hay.drop i))

def o2LargeTables : List Str :=
  [s2l "TRANSACTIONS", s2l "ACCOUNTS", s2l "CUSTOMERS", s2l "ORDERS",
   s2l "PAYMENTS", s2l "EVENTS"]

/-- Models `re.search(r'\bUNION\s+(?!ALL)', line_upper)` as a Boolean. -/
def o2UnionSearchRE : RE := reSeq [.wb, litS "UNION", wsP, .nla (litS "ALL")]

def reSearch (r : RE) (cs : Str) : Bool :=
  (List.range (cs.length + 1)).any (fun i => (matchAt r cs i).isSome)

/-- The checks `check_file` runs on one (1-based) line. -/
def checkLineIssues (lines : List Str) (i : Nat) (line : Str) : List O2Issue :=
  let line_upper := pyStrip (pyUpperStr line)
  if line_upper.take 2 = s2l "--" ∨ line_upper = [] then []
  else
    (if strContains line_upper (s2l "SELECT *") then
      [{ line := i, itype := s2l "select_star",
         description := s2l "SELECT * found - scans all columns",
         content := pyStrip line, severity := s2l "HIGH" }]
     else []) ++
    (o2LargeTables.flatMap (fun table =>
      if strContains line_upper (s2l "FROM " ++ table) ∨
         strContains line_upper (s2l "JOIN " ++ table) then
        let start := i - 2
        let stop := min lines.length (i + 3)
        let has_where := (List.range' start (stop - start)).any
          (fun j => strContains (pyUpperStr (lines.getD j [])) (s2l "WHERE"))
        if has_where then []
        else
          [{ line := i, itype := s2l "missing_where",
             description := s2l "Query on " ++ table ++ s2l " without WHERE clause",
             content := pyStrip line, severity := s2l "HIGH" }]
      else [])) ++
    (if strContains line_upper (s2l "ORDER BY") ∧
        ¬ strContains line_upper (s2l "LIMIT") ∧ ¬ strContains line_upper (s2l "TOP") then
      [{ line := i, itype := s2l "order_no_limit",
         description := s2l "ORDER BY without LIMIT - sorts entire result",
         content := pyStrip line, severity := s2l "MEDIUM" }]
     else []) ++
    (if (strContains line_upper (s2l "CREATE TABLE") ∨
         strContains line_upper (s2l "DROP TABLE")) ∧
        ¬ strContains line_upper (s2l "TEMPORARY") ∧ ¬ strContains line_upper (s2l "TEMP") then
      [{ line := i, itype := s2l "create_drop_table",
         description := s2l "Creating/dropping permanent tables in ETL",
         content := pyStrip line, severity := s2l "HIGH" }]
     else []) ++
    (if reSearch o2UnionSearchRE line_upper then
      [{ line := i, itype := s2l "union_without_all",
         description := s2l "UNION without ALL - does unnecessary deduplication",
         content := pyStrip line, severity := s2l "MEDIUM" }]
     else []) ++
    (if strContains line_upper (s2l "SELECT DISTINCT") then
      [{ line := i, itype := s2l "distinct_usage",
         description := s2l "DISTINCT usage - consider if GROUP BY is better",
         content := pyStrip line, severity := s2l "MEDIUM" }]
     else [])

/-- Models `check_file` on readable content: the per-line checks in line order. -/
def checkFileIssues (content : Str) : List O2Issue :=
  let lines := pySplitNl content
  (List.enumFrom 1 lines).flatMap (fun p => checkLineIssues lines p.1 p.2)

/-- Models `check_file` with its read model: the bare `except:` returns an empty
issue list and prints nothing (the second component is the messages
emitted, always empty because `check_file` never prints). -/
def checkFile (c : Option Str) : List O2Issue × List Str :=
  match c with
  | none => ([], [])
  | some content => (checkFileIssues content, [])

/-- Python `str.replace(';', repl)` restricted to a single-character needle. -/
def pyReplaceSemi (cs : Str) (repl : Str) : Str :=
  cs.flatMap (fun c => if c = ';' then repl else [c])

/-- Splice replacements over `re.sub`'s non-overlapping match list. -/
def pySubSplice (cs : Str) (f : Str → Str) : List (Nat × Nat) → Nat → Str
  | [], pos => cs.drop pos
  | (s, e) :: rest, pos =>
    (cs.drop pos).take (s - pos) ++ f ((cs.drop s).take (e - s)) ++
      pySubSplice cs f rest e

/-- Models `re.sub(pattern, f, cs)` (all the patterns used have positive minimum
match length, so empty-match subtleties do not arise). -/
def pySub (r : RE) (f : Str → Str) (cs : Str) : Str :=
  pySubSplice cs f (pyFinditer r cs) 0

/-- Models `SELECT\s+\*(?=\s+FROM)` -/
def o2Sub1RE : RE := reSeq [litS "SELECT", wsP, litS "*", .pla (reSeq [wsP, litS "FROM"])]

def o2Sub1Repl : Str := s2l "SELECT \n    -- TODO: Replace * with specific columns\n    *"

/-- Models `\bUNION\s+(?!ALL)` -/
def o2Sub2RE : RE := reSeq [.wb, litS "UNION", wsP, .nla (litS "ALL")]

def o2Sub2Repl : Str := s2l "UNION ALL "

/-- Models `ORDER\s+BY\s+[^;]*(?=;|\s*$)` -/
def o2Sub3RE : RE :=
  reSeq [litS "ORDER", wsP, litS "BY", wsP, .star (.notCh ';'),
    .pla (.alt (litS ";") (reSeq [wsS, .eol]))]

/-- Models `add_limit_to_order`: the matched clause cannot contain `;` (the
pattern excludes it), so the first branch is dead, but it is modelled
faithfully. -/
def addLimitToOrder (clause : Str) : Str :=
  if ';' ∈ clause then pyReplaceSemi clause (s2l " LIMIT 1000;")
  else clause ++ s2l " LIMIT 1000"

/-- Models `CREATE\s+TABLE\s+(?!.*TRANSIENT)(?=\w+\.(temp_|tmp_|staging_))` -/
def o2Sub4RE : RE :=
  reSeq [litS "CREATE", wsP, litS "TABLE", wsP,
    .nla (reSeq [.star .any, litS "TRANSIENT"]),
    .pla (reSeq [.plus .word, litS ".",
      .alt (litS "temp_") (.alt (litS "tmp_") (litS "staging_"))])]

def o2Sub4Repl : Str := s2l "CREATE OR REPLACE TRANSIENT TABLE "

/-- Models `fix_single_file`: the four global substitutions applied in order.
It never consults the findings passed to it. -/
def fixSingleFile (content : Str) : Str :=
  let c1 := pySub o2Sub1RE (fun _ => o2Sub1Repl) content
  let c2 := pySub o2Sub2RE (fun _ => o2Sub2Repl) c1
  let c3 := pySub o2Sub3RE addLimitToOrder c2
  pySub o2Sub4RE (fun _ => o2Sub4Repl) c3

-- smoke tests for the optimizer_2 models
example :
    (checkFileIssues (s2l "SELECT A FROM T UNION SELECT B FROM T")).map
      (fun i => (i.itype, i.line)) = [(s2l "union_without_all", 1)] := by decide
example :
    fixSingleFile (s2l "SELECT A FROM T UNION SELECT B FROM T") =
      s2l "SELECT A FROM T UNION ALL SELECT B FROM T" := by decide
example : pyReadlines (s2l "a\nbc") = [s2l "a\n", s2l "bc"] := by decide
example : pyReadlines (s2l "one\n") = [s2l "one\n"] := by decide

set_option maxRecDepth 8000

/-!
## Claims C1, C3, C6: concrete evaluations

These settle the claims whose truth is decided by running the embedded
code on the concrete inputs the claims name.
-/

def examplePath : Str := s2l "etl/query.sql"

/-- The file content of spec Example 1 (claims C3 and C6). -/
def c36Content : Str := s2l "SELECT * FROM customers;"

/-- The claim-side precondition of C3, from the spec's words: the text
contains a case-insensitive `SELECT`, then at least one whitespace
character, then `*`, eventually followed by `FROM`. -/
def hasSelectStarFrom (cs : Str) : Bool :=
  (List.range cs.length).any fun i =>
    ciPrefixAt cs i (s2l "SELECT") &&
    (let t := runLen cs .ws (i + 6)
     decide (1 ≤ t) && (cs[i + 6 + t]? == some '*') &&
     ((List.range cs.length).any fun j =>
       decide (i + 6 + t < j) && ciPrefixAt cs j (s2l "FROM")))

/-- C3: the claim says every text with a case-insensitive `SELECT *`
eventually followed by `FROM` yields a HIGH wildcard-selection finding at
the line of the `*`.  The code's pattern `\bSELECT\s+\*\b` requires a word
character immediately after the `*`, so on `SELECT * FROM customers;` —
which satisfies the claim's precondition — the scanner produces no
`select_star` finding at all. -/
theorem C3_wildcard_rule_never_fires_on_select_star_from :
    hasSelectStarFrom c36Content = true
  ∧ (scanFileIssues examplePath c36Content).filter
      (fun f => f.issue_type = s2l "select_star") = [] := by decide

/-- C6: the claim says scanning `SELECT * FROM customers;` yields exactly
two findings at line 1 (wildcard HIGH and missing-WHERE HIGH).  The code
yields exactly one finding: the missing-WHERE one; the wildcard rule
cannot match because of the trailing `\b` after `\*` in its regex. -/
theorem C6_example1_yields_one_finding :
    scanFileIssues examplePath c36Content =
    [{ file_path := examplePath
       line_number := 1
       issue_type := s2l "missing_where_large_table"
       severity := s2l "HIGH"
       description := s2l "Query on large table without WHERE clause"
       original_line := s2l "SELECT * FROM customers;"
       suggested_fix := s2l "-- Add WHERE clause to filter data\n-- WHERE created_date >= DATEADD(day, -30, CURRENT_DATE())"
       estimated_cost_impact := s2l "Full table scan - extremely expensive" }] := by decide

/-- A file with one union finding, used to exercise the fixer for C1. -/
def c1Content : Str := s2l "SELECT A FROM T UNION SELECT B\n"

def c1Issues : List SQLIssue := scanFileIssues examplePath c1Content

/-- C1: the claim (and the spec) says the backup written by
`_fix_file_issues` holds the pre-fix content.  The code mutates `lines`
first and only then writes `''.join(lines)` to the backup path, so the
backup equals the post-fix content and differs from the original file. -/
theorem C1_backup_holds_postfix_content :
    c1Issues ≠ []
  ∧ (fixFileResult (pyReadlines c1Content) c1Issues).1 ≠ c1Content
  ∧ (fixFileResult (pyReadlines c1Content) c1Issues).1 =
      (fixFileResult (pyReadlines c1Content) c1Issues).2 := by decide

/-!
## Counterexamples for C2, C5, C8
-/

/-- A one-line file whose single finding is the bare `UNION`. -/
def c2cxContent : Str := s2l "SELECT A FROM T UNION SELECT B FROM T"

/-- C2 counterexample: the claim quantifies over the Fixer, and
`optimizer_2.fix_single_file` is one of its cited implementations.  On a
file whose line 1 is matched by a `union_without_all` finding, the rewrite
replaces `UNION` by `UNION ALL` in place: the matched original line is no
longer present in the output, neither as live code nor as a commented
record. -/
theorem C2_counterexample :
    (checkFileIssues c2cxContent).map (fun i => (i.itype, i.line)) =
      [(s2l "union_without_all", 1)]
  ∧ fixSingleFile c2cxContent = s2l "SELECT A FROM T UNION ALL SELECT B FROM T"
  ∧ strContains (fixSingleFile c2cxContent) c2cxContent = false := by decide

/-- Claim-side: a case-insensitive occurrence of the word `UNION`
starting at `i`. -/
def unionWordAtB (cs : Str) (i : Nat) : Bool :=
  isWordB cs i && ciPrefixAt cs i (s2l "UNION")

/-- Claim-side reading of "`UNION` immediately followed by `ALL`": after
the word `UNION`, whitespace and then `ALL` at a word boundary. -/
def unionFollowedByAll (cs : Str) (i : Nat) : Bool :=
  let t := runLen cs .ws (i + 5)
  ciPrefixAt cs (i + 5 + t) (s2l "ALL") && isWordB cs (i + 5 + t + 3)

def everyUnionFollowedByAll (cs : Str) : Bool :=
  (List.range (cs.length + 1)).all fun i =>
    !(unionWordAtB cs i) || unionFollowedByAll cs i

/-- The scanner's findings for the union rule. -/
def unionFindings (path cs : Str) : List SQLIssue :=
  (scanFileIssues path cs).filter
    (fun f => f.issue_type = s2l "union_instead_union_all")

def c5Text1 : Str := s2l "SELECT A FROM T UNION"

def c5Text2 : Str := s2l "SELECT A FROM T UNION  ALL SELECT B FROM T"

/-- C5 counterexample.  First half: `c5Text1` contains a word `UNION`
(at index 16) not followed by `ALL`, yet the union rule produces no
finding (the pattern `\bUNION\s+(?!ALL\b)` needs at least one whitespace
character after `UNION`, and here the text ends).  Second half: in
`c5Text2` every `UNION` is followed by `ALL` (after whitespace), yet the
rule fires, because with two spaces the backtracking `\s+` can stop one
character early, where the negative lookahead `(?!ALL\b)` succeeds. -/
theorem C5_counterexample :
    (unionWordAtB c5Text1 16 = true ∧ unionFollowedByAll c5Text1 16 = false
      ∧ unionFindings examplePath c5Text1 = [])
  ∧ (everyUnionFollowedByAll c5Text2 = true
      ∧ unionFindings examplePath c5Text2 ≠ []) := by decide

/-- C8 counterexample: `optimizer_2.check_file` has a bare `except:` that
returns an empty issue list and prints nothing, so a per-file read error
is silently swallowed without any message — contradicting the claim that
no per-file error is silently swallowed. -/
theorem C8_counterexample : checkFile none = ([], []) := rfl

/-!
## General lemmas about the matcher and the scan
-/

lemma finditerAux_mem {r : RE} {cs : Str} {s e : Nat} :
    ∀ fuel i, (s, e) ∈ finditerAux r cs fuel i →
      s ≤ cs.length ∧ matchAt r cs s = some e := by
  intro fuel
  induction fuel with
  | zero => intro i h; simp [finditerAux] at h
  | succ f ih =>
    intro i h
    rw [finditerAux] at h
    split at h
    · simp at h
    · rename_i hle
      cases hmm : matchAt r cs i with
      | none => rw [hmm] at h; exact ih _ h
      | some e' =>
        rw [hmm] at h
        rcases List.mem_cons.mp h with h | h
        · obtain ⟨rfl, rfl⟩ := Prod.mk.injEq .. ▸ h
          exact ⟨Nat.le_of_not_lt hle, hmm⟩
        · exact ih _ h

/-- Every `(start, end)` pair emitted by `pyFinditer` is a genuine match
starting inside the text. -/
lemma pyFinditer_mem {r : RE} {cs : Str} {s e : Nat}
    (h : (s, e) ∈ pyFinditer r cs) : s ≤ cs.length ∧ matchAt r cs s = some e :=
  finditerAux_mem _ _ h

lemma mem_allMatches {content : Str} {x : PatternInfo × Nat × Nat}
    (hx : x ∈ allMatches content) :
    x.1 ∈ patterns ∧ (x.2.1, x.2.2) ∈ pyFinditer x.1.re content := by
  simp only [allMatches, List.mem_flatMap, List.mem_map] at hx
  obtain ⟨p, hp, m, hm, rfl⟩ := hx
  exact ⟨hp, hm⟩

/-- Characterization of the findings of one scan. -/
lemma mem_scanFileIssues {path content : Str} {f : SQLIssue} :
    f ∈ scanFileIssues path content ↔
      ∃ p s e, p ∈ patterns ∧ (s, e) ∈ pyFinditer p.re content ∧
        isInComment content s = false ∧ f = mkIssue path content p s := by
  constructor
  · intro h
    simp only [scanFileIssues, keptMatches, allMatches, List.mem_map, List.mem_filter,
      List.mem_flatMap, Bool.not_eq_true'] at h
    obtain ⟨⟨p, s, e⟩, ⟨⟨q, hq, m, hm, hx⟩, hcom⟩, rfl⟩ := h
    obtain ⟨rfl, rfl, rfl⟩ : q = p ∧ m.1 = s ∧ m.2 = e := by
      injection hx with h1 h2
      injection h2 with h2 h3
      exact ⟨h1, h2, h3⟩
    exact ⟨q, m.1, m.2, hq, hm, hcom, rfl⟩
  · rintro ⟨p, s, e, hp, hm, hcom, rfl⟩
    simp only [scanFileIssues, keptMatches, allMatches, List.mem_map, List.mem_filter,
      List.mem_flatMap, Bool.not_eq_true']
    exact ⟨(p, s, e), ⟨⟨p, hp, (s, e), hm, rfl⟩, hcom⟩, rfl⟩

lemma ends_seq_nonempty {r₁ r₂ : RE} {cs : Str} {i : Nat}
    (h : ends (.seq r₁ r₂) cs i ≠ []) :
    ∃ j ∈ ends r₁ cs i, ends r₂ cs j ≠ [] := by
  by_contra hc
  push_neg at hc
  apply h
  simp only [ends, List.flatMap_eq_nil_iff]
  exact hc

lemma ends_wb_mem {cs : Str} {i j : Nat} (h : j ∈ ends .wb cs i) :
    j = i ∧ isWordB cs i = true := by
  simp only [ends] at h
  split at h
  · rename_i hw; rcases List.mem_singleton.mp h with rfl; exact ⟨rfl, hw⟩
  · simp at h

lemma ends_lit_nonempty {s : Str} {cs : Str} {i : Nat}
    (h : ends (.lit s) cs i ≠ []) : ciPrefixAt cs i s = true := by
  by_contra hc
  apply h
  simp only [ends, if_neg hc]

lemma ends_lit_mem {s : Str} {cs : Str} {i j : Nat} (h : j ∈ ends (.lit s) cs i) :
    j = i + s.length ∧ ciPrefixAt cs i s = true := by
  simp only [ends] at h
  split at h
  · rename_i hp; rcases List.mem_singleton.mp h with rfl; exact ⟨rfl, hp⟩
  · simp at h

lemma ends_alt_nonempty {r₁ r₂ : RE} {cs : Str} {i : Nat}
    (h : ends (.alt r₁ r₂) cs i ≠ []) :
    ends r₁ cs i ≠ [] ∨ ends r₂ cs i ≠ [] := by
  by_contra hc
  push_neg at hc
  exact h (by simp only [ends, hc.1, hc.2, List.append_nil])

lemma ciPrefixAt_head {cs : Str} {i : Nat} {d : Char} {ds : Str}
    (h : ciPrefixAt cs i (d :: ds) = true) :
    ∃ c, cs[i]? = some c ∧ ciEq c d = true := by
  unfold ciPrefixAt at h
  cases hc : cs[i]? with
  | none => rw [hc] at h; simp at h
  | some c =>
    rw [hc] at h
    simp only [Bool.and_eq_true] at h
    exact ⟨c, rfl, h.1⟩

/-- Each character of a case-insensitive literal match. -/
lemma ciPrefixAt_getElem {cs : Str} :
    ∀ {s : Str} {i : Nat}, ciPrefixAt cs i s = true →
      ∀ k d, s[k]? = some d → ∃ c, cs[i + k]? = some c ∧ ciEq c d = true := by
  intro s
  induction s with
  | nil => intro i _ k d hk; simp at hk
  | cons e ds ih =>
    intro i h k d hk
    unfold ciPrefixAt at h
    cases hc : cs[i]? with
    | none => rw [hc] at h; simp at h
    | some c =>
      rw [hc] at h
      simp only [Bool.and_eq_true] at h
      obtain ⟨h1, h2⟩ := h
      cases k with
      | zero =>
        rw [List.getElem?_cons_zero] at hk
        injection hk with hk
        exact ⟨c, by simpa using hc, hk ▸ h1⟩
      | succ k' =>
        rw [List.getElem?_cons_succ] at hk
        obtain ⟨c', hc', he⟩ := ih h2 k' d hk
        exact ⟨c', by rw [← hc']; congr 1; omega, he⟩

/-!
## Claim C9: session counter invariant
-/

/-- The invariant of C9: `issues_found` equals the number of accumulated
findings and the sum of the three severity counters, each of which counts
the findings of its severity. -/
def statsInv (st : ScanState) : Prop :=
  st.issues_found = st.issues.length
  ∧ st.issues_found = st.high_severity + st.medium_severity + st.low_severity
  ∧ st.high_severity = (st.issues.filter (fun i => i.severity = s2l "HIGH")).length
  ∧ st.medium_severity = (st.issues.filter (fun i => i.severity = s2l "MEDIUM")).length
  ∧ st.low_severity = (st.issues.filter (fun i => i.severity = s2l "LOW")).length

instance (st : ScanState) : Decidable (statsInv st) := by
  unfold statsInv; infer_instance

lemma patterns_severity :
    ∀ p ∈ patterns, p.severity = s2l "HIGH" ∨ p.severity = s2l "MEDIUM" ∨
      p.severity = s2l "LOW" := by decide

lemma scan_issue_severity {path content : Str} {f : SQLIssue}
    (h : f ∈ scanFileIssues path content) :
    f.severity = s2l "HIGH" ∨ f.severity = s2l "MEDIUM" ∨ f.severity = s2l "LOW" := by
  obtain ⟨p, s, e, hp, _, _, rfl⟩ := mem_scanFileIssues.mp h
  exact patterns_severity p hp

lemma bumpSeverity_eq_high (st : ScanState) :
    bumpSeverity st (s2l "HIGH") = { st with high_severity := st.high_severity + 1 } := by
  unfold bumpSeverity
  rw [if_pos rfl]

lemma bumpSeverity_eq_medium (st : ScanState) :
    bumpSeverity st (s2l "MEDIUM") =
      { st with medium_severity := st.medium_severity + 1 } := by
  unfold bumpSeverity
  rw [if_neg (by decide), if_pos rfl]

lemma bumpSeverity_eq_low (st : ScanState) :
    bumpSeverity st (s2l "LOW") = { st with low_severity := st.low_severity + 1 } := by
  unfold bumpSeverity
  rw [if_neg (by decide), if_neg (by decide), if_pos rfl]

lemma length_filter_append_single (l : List SQLIssue) (iss : SQLIssue)
    (p : SQLIssue → Bool) :
    (List.filter p (l ++ [iss])).length =
    (List.filter p l).length + (if p iss then 1 else 0) := by
  rw [List.filter_append]
  by_cases hp : p iss
  · simp [List.filter_cons, hp]
  · simp [List.filter_cons, hp]

lemma statsInv_addIssue {st : ScanState} {iss : SQLIssue}
    (hs : iss.severity = s2l "HIGH" ∨ iss.severity = s2l "MEDIUM" ∨
      iss.severity = s2l "LOW")
    (h : statsInv st) : statsInv (addIssue st iss) := by
  obtain ⟨h1, h2, h3, h4, h5⟩ := h
  rcases hs with hs | hs | hs
  · unfold addIssue
    rw [hs, bumpSeverity_eq_high]
    refine ⟨by simp [h1], by simp; omega, ?_, ?_, ?_⟩
    · rw [length_filter_append_single, if_pos (by rw [hs]; decide)]
      simpa using h3
    · rw [length_filter_append_single, if_neg (by rw [hs]; decide)]
      simpa using h4
    · rw [length_filter_append_single, if_neg (by rw [hs]; decide)]
      simpa using h5
  · unfold addIssue
    rw [hs, bumpSeverity_eq_medium]
    refine ⟨by simp [h1], by simp; omega, ?_, ?_, ?_⟩
    · rw [length_filter_append_single, if_neg (by rw [hs]; decide)]
      simpa using h3
    · rw [length_filter_append_single, if_pos (by rw [hs]; decide)]
      simpa using h4
    · rw [length_filter_append_single, if_neg (by rw [hs]; decide)]
      simpa using h5
  · unfold addIssue
    rw [hs, bumpSeverity_eq_low]
    refine ⟨by simp [h1], by simp; omega, ?_, ?_, ?_⟩
    · rw [length_filter_append_single, if_neg (by rw [hs]; decide)]
      simpa using h3
    · rw [length_filter_append_single, if_neg (by rw [hs]; decide)]
      simpa using h4
    · rw [length_filter_append_single, if_pos (by rw [hs]; decide)]
      simpa using h5

lemma statsInv_foldl (l : List SQLIssue)
    (hl : ∀ i ∈ l, i.severity = s2l "HIGH" ∨ i.severity = s2l "MEDIUM" ∨
      i.severity = s2l "LOW") :
    ∀ st : ScanState, statsInv st → statsInv (l.foldl addIssue st) := by
  induction l with
  | nil => intro st h; exact h
  | cons x xs ih =>
    intro st h
    exact ih (fun i hi => hl i (List.mem_cons_of_mem _ hi)) _
      (statsInv_addIssue (hl x (List.mem_cons_self _ _)) h)

/-- C9: the counters of the session state satisfy the invariant initially,
and every invocation of the file-scan operation preserves it: afterwards
`issues_found` equals the number of accumulated findings and the sum of
the per-severity counters, each of which counts the findings of its
severity. -/
theorem C9_stats_invariant :
    statsInv initState ∧
    ∀ (st : ScanState) (file : Str × Option Str),
      statsInv st → statsInv (sqlScanFile st file) := by
  refine ⟨by decide, ?_⟩
  intro st file h
  obtain ⟨path, content⟩ := file
  cases content with
  | none =>
    obtain ⟨h1, h2, h3, h4, h5⟩ := h
    exact ⟨h1, h2, h3, h4, h5⟩
  | some c =>
    exact statsInv_foldl _ (fun i hi => scan_issue_severity hi) _ h

theorem C9_stats_invariant_witness :
    statsInv (sqlScanFile initState (examplePath, some c36Content)) :=
  C9_stats_invariant.2 initState (examplePath, some c36Content) (by decide)

/-!
## Claim C10: out-of-range findings are skipped
-/

lemma applyIssue_length (ls : List Str) (iss : SQLIssue) :
    (applyIssue ls iss).length = ls.length := by
  unfold applyIssue
  by_cases h : iss.line_number - 1 ≥ ls.length
  · rw [if_pos h]
  · rw [if_neg h]
    simp

lemma foldl_applyIssue_filter (l : List SQLIssue) (n : Nat) :
    ∀ ls : List Str, ls.length = n →
      l.foldl applyIssue ls =
        (l.filter (fun i => decide (¬ n < i.line_number))).foldl applyIssue ls := by
  induction l with
  | nil => intro ls _; rfl
  | cons x xs ih =>
    intro ls hn
    by_cases hx : n < x.line_number
    · rw [List.filter_cons_of_neg (by simpa using hx)]
      have hskip : applyIssue ls x = ls := by
        unfold applyIssue
        rw [if_pos (by omega)]
      rw [List.foldl_cons, hskip]
      exact ih ls hn
    · rw [List.filter_cons_of_pos (by simpa using hx), List.foldl_cons,
        List.foldl_cons]
      exact ih _ (by rw [applyIssue_length]; exact hn)

/-- C10: a finding whose 1-based line number exceeds the number of lines
is skipped by the fixer without modifying anything (`applyIssue` is the
identity there), and the rewrite equals the one obtained from the
in-range findings alone, so all remaining findings are still applied. -/
theorem C10_out_of_range_findings_skipped :
    (∀ (ls : List Str) (iss : SQLIssue), ls.length < iss.line_number →
      applyIssue ls iss = ls)
  ∧ ∀ (ls : List Str) (issues : List SQLIssue),
      fixFileLines ls issues =
        ((sortIssuesDesc issues).filter
          (fun i => decide (¬ ls.length < i.line_number))).foldl applyIssue ls := by
  constructor
  · intro ls iss h
    unfold applyIssue
    rw [if_pos (by omega)]
  · intro ls issues
    exact foldl_applyIssue_filter _ _ ls rfl

/-- A finding on line 7 of a one-line file, for the C10 witness. -/
def c10Issue : SQLIssue :=
  { file_path := examplePath, line_number := 7,
    issue_type := s2l "t", severity := s2l "HIGH",
    description := s2l "d", original_line := s2l "o",
    suggested_fix := s2l "f", estimated_cost_impact := s2l "c" }

theorem C10_out_of_range_findings_skipped_witness :
    ([s2l "SELECT 1;"] : List Str).length < c10Issue.line_number
  ∧ applyIssue [s2l "SELECT 1;"] c10Issue = [s2l "SELECT 1;"] :=
  ⟨by decide, C10_out_of_range_findings_skipped.1 _ _ (by decide)⟩

/-!
## Claim C2: descending application order and frame properties of the fixer
-/

lemma applyIssue_getD_ne (ls : List Str) (iss : SQLIssue) (j : Nat)
    (hj : iss.line_number - 1 ≠ j) :
    (applyIssue ls iss).getD j [] = ls.getD j [] := by
  unfold applyIssue
  by_cases h : iss.line_number - 1 ≥ ls.length
  · rw [if_pos h]
  · rw [if_neg h]
    simp only [List.getD_eq_getElem?_getD, List.getElem?_set_ne hj]

lemma foldl_applyIssue_getD_ne (l : List SQLIssue) (j : Nat)
    (hl : ∀ iss ∈ l, iss.line_number - 1 ≠ j) :
    ∀ ls : List Str, (l.foldl applyIssue ls).getD j [] = ls.getD j [] := by
  induction l with
  | nil => intro ls; rfl
  | cons x xs ih =>
    intro ls
    rw [List.foldl_cons, ih (fun i hi => hl i (List.mem_cons_of_mem _ hi)),
      applyIssue_getD_ne _ _ _ (hl x (List.mem_cons_self _ _))]

lemma applyIssue_getD_infix (ls : List Str) (iss : SQLIssue) (k : Nat) :
    ∃ u v, (applyIssue ls iss).getD k [] = u ++ ls.getD k [] ++ v := by
  unfold applyIssue
  by_cases h : iss.line_number - 1 ≥ ls.length
  · rw [if_pos h]
    exact ⟨[], [], by simp⟩
  · rw [if_neg h]
    by_cases hk : iss.line_number - 1 = k
    · subst hk
      rw [List.getD_eq_getElem?_getD,
        List.getElem?_set_self (by omega), Option.getD_some]
      unfold commentedOriginal
      by_cases hnl : (ls.getD (iss.line_number - 1) []).getLast? = some '\n'
      · rw [if_pos hnl]
        exact ⟨fixHeader iss ++ s2l "-- ORIGINAL: ", suggestedPart iss, by
          simp [List.getD_eq_getElem?_getD, List.append_assoc]⟩
      · rw [if_neg hnl]
        exact ⟨fixHeader iss ++ s2l "-- ORIGINAL: ", '\n' :: suggestedPart iss, by
          simp [List.getD_eq_getElem?_getD, List.append_assoc]⟩
    · rw [List.getD_eq_getElem?_getD, List.getElem?_set_ne hk,
        ← List.getD_eq_getElem?_getD]
      exact ⟨[], [], by simp⟩

lemma foldl_applyIssue_getD_infix (l : List SQLIssue) (k : Nat) :
    ∀ ls : List Str, ∃ u v,
      (l.foldl applyIssue ls).getD k [] = u ++ ls.getD k [] ++ v := by
  induction l with
  | nil => intro ls; exact ⟨[], [], by simp⟩
  | cons x xs ih =>
    intro ls
    obtain ⟨u₂, v₂, h₂⟩ := ih (applyIssue ls x)
    obtain ⟨u₁, v₁, h₁⟩ := applyIssue_getD_infix ls x k
    exact ⟨u₂ ++ u₁, v₁ ++ v₂, by
      rw [List.foldl_cons, h₂, h₁]; simp [List.append_assoc]⟩

lemma foldl_applyIssue_length (l : List SQLIssue) :
    ∀ ls : List Str, (l.foldl applyIssue ls).length = ls.length := by
  induction l with
  | nil => intro ls; rfl
  | cons x xs ih =>
    intro ls
    rw [List.foldl_cons, ih, applyIssue_length]

/-- C2 (amended, for `_fix_file_issues`): for findings with 1-based
(positive) line numbers, the fixer sorts them into descending line-number
order (a permutation of the input), keeps the number of lines unchanged,
leaves every line not named by any finding untouched, keeps every matched
original line present inside the rewritten line at its position (as a
substring of the commented record), and applying one finding never touches
any line with a smaller line number. -/
theorem C2_fixer_descending_order_and_frame (ls : List Str)
    (issues : List SQLIssue)
    (hpos : ∀ iss ∈ issues, 1 ≤ iss.line_number) :
    List.Pairwise issueGE (sortIssuesDesc issues)
  ∧ (sortIssuesDesc issues).Perm issues
  ∧ (fixFileLines ls issues).length = ls.length
  ∧ (∀ j, (∀ iss ∈ issues, iss.line_number ≠ j + 1) →
      (fixFileLines ls issues).getD j [] = ls.getD j [])
  ∧ (∀ iss ∈ issues, ∃ u v,
      (fixFileLines ls issues).getD (iss.line_number - 1) [] =
        u ++ ls.getD (iss.line_number - 1) [] ++ v)
  ∧ (∀ (ms : List Str) (iss : SQLIssue) (j : Nat), j + 1 < iss.line_number →
      (applyIssue ms iss).getD j [] = ms.getD j []) := by
  refine ⟨List.sorted_insertionSort issueGE issues,
    List.perm_insertionSort issueGE issues,
    foldl_applyIssue_length _ ls, ?_, ?_, ?_⟩
  · intro j hj
    refine foldl_applyIssue_getD_ne _ _ ?_ ls
    intro iss hiss
    have hmem : iss ∈ issues := (List.perm_insertionSort issueGE issues).mem_iff.mp hiss
    have := hpos iss hmem
    have := hj iss hmem
    omega
  · intro iss _
    exact foldl_applyIssue_getD_infix _ _ ls
  · intro ms iss j hj
    exact applyIssue_getD_ne ms iss j (by omega)

theorem C2_fixer_descending_order_and_frame_witness :
    (∀ iss ∈ c1Issues, 1 ≤ iss.line_number)
  ∧ (fixFileLines (pyReadlines c1Content) c1Issues).length =
      (pyReadlines c1Content).length :=
  ⟨by decide,
   (C2_fixer_descending_order_and_frame (pyReadlines c1Content) c1Issues
     (by decide)).2.2.1⟩

/-!
## Claim C8 (amended): error handling of the scan
-/

/-- C8 (amended): a missing root directory is a fatal error raised before
any file is scanned; an unreadable file bumps `files_scanned`, prints a
warning and leaves the session findings untouched; later files are still
processed (the scan is the fold over the whole file list); and
`optimizer_2.check_file` never prints anything, so its per-file read
errors are swallowed silently. -/
theorem C8_error_handling :
    scanDirectory none = Except.error (s2l "ETL directory not found")
  ∧ (∀ (st : ScanState) (path : Str),
      sqlScanFile st (path, none) =
        { st with files_scanned := st.files_scanned + 1,
                  log := st.log ++ [errorReadingMsg path] })
  ∧ (∀ files₁ files₂ : List (Str × Option Str),
      scanDirectory (some (files₁ ++ files₂)) =
        Except.ok (files₂.foldl sqlScanFile (files₁.foldl sqlScanFile initState)))
  ∧ (∀ c : Option Str, (checkFile c).2 = []) := by
  refine ⟨rfl, fun st path => rfl, fun files₁ files₂ => ?_, fun c => ?_⟩
  · simp [scanDirectory, List.foldl_append]
  · cases c <;> rfl

/-!
## Claim C7: line number and original line of a finding

`specLineText` renders the spec's phrase "the exact text of that line":
the characters around position `s` up to the nearest newline on each side.
-/

/-- The text of the line containing position `s`: everything after the
previous newline and before the next one. -/
def specLineText (cs : Str) (s : Nat) : Str :=
  ((cs.take s).reverse.takeWhile (· != '\n')).reverse ++
    (cs.drop s).takeWhile (· != '\n')

lemma pySplitNl_ne_nil (t : Str) : pySplitNl t ≠ [] := by
  cases t with
  | nil => simp [pySplitNl]
  | cons c r =>
    unfold pySplitNl
    by_cases hc : c = '\n'
    · rw [if_pos hc]; simp
    · rw [if_neg hc]
      cases h : pySplitNl r <;> simp

lemma countNl_cons (c : Char) (r : Str) :
    countNl (c :: r) = countNl r + (if c = '\n' then 1 else 0) := by
  unfold countNl
  rw [List.countP_cons]
  by_cases hc : c = '\n' <;> simp [hc]

lemma length_pySplitNl : ∀ t : Str, (pySplitNl t).length = countNl t + 1 := by
  intro t
  induction t with
  | nil => rfl
  | cons c r ih =>
    unfold pySplitNl
    rw [countNl_cons]
    by_cases hc : c = '\n'
    · rw [if_pos hc, if_pos hc]
      simp [ih]
    · rw [if_neg hc, if_neg hc]
      cases h : pySplitNl r with
      | nil => exact absurd h (pySplitNl_ne_nil r)
      | cons l ls =>
        have hlen : (l :: ls).length = countNl r + 1 := by rw [← h, ih]
        simpa using hlen

lemma pySplitNl_getD_zero : ∀ t : Str, (pySplitNl t).getD 0 [] = t.takeWhile (· != '\n') := by
  intro t
  induction t with
  | nil => rfl
  | cons c r ih =>
    unfold pySplitNl
    by_cases hc : c = '\n'
    · subst hc
      rw [if_pos rfl]
      simp [List.takeWhile_cons]
    · rw [if_neg hc]
      cases h : pySplitNl r with
      | nil => exact absurd h (pySplitNl_ne_nil r)
      | cons l ls =>
        have hl : l = r.takeWhile (· != '\n') := by
          rw [h] at ih
          simpa using ih
        rw [List.takeWhile_cons, if_pos (by simp [hc])]
        simp [hl]

lemma takeWhile_append_all {p : Char → Bool} :
    ∀ l₁ l₂ : Str, (∀ x ∈ l₁, p x = true) →
      (l₁ ++ l₂).takeWhile p = l₁ ++ l₂.takeWhile p := by
  intro l₁
  induction l₁ with
  | nil => intro l₂ _; rfl
  | cons c l ih =>
    intro l₂ h
    rw [List.cons_append, List.takeWhile_cons,
      if_pos (h c (List.mem_cons_self _ _)), ih l₂
        (fun x hx => h x (List.mem_cons_of_mem _ hx))]
    rfl

lemma takeWhile_append_stop {p : Char → Bool} :
    ∀ l₁ l₂ : Str, (∃ x ∈ l₁, p x = false) →
      (l₁ ++ l₂).takeWhile p = l₁.takeWhile p := by
  intro l₁
  induction l₁ with
  | nil => intro l₂ h; simp at h
  | cons c l ih =>
    intro l₂ h
    by_cases hc : p c
    · obtain ⟨x, hx, hpx⟩ := h
      have hxl : x ∈ l := by
        rcases List.mem_cons.mp hx with rfl | hxl
        · rw [hc] at hpx; cases hpx
        · exact hxl
      rw [List.cons_append, List.takeWhile_cons, if_pos hc,
        List.takeWhile_cons, if_pos hc, ih l₂ ⟨x, hxl, hpx⟩]
    · rw [List.cons_append, List.takeWhile_cons,
        if_neg hc, List.takeWhile_cons, if_neg hc]

lemma takeWhile_append_single_false {p : Char → Bool} {a : Char}
    (ha : p a = false) (l : Str) : (l ++ [a]).takeWhile p = l.takeWhile p := by
  induction l with
  | nil => simp [List.takeWhile_cons, ha]
  | cons c t ih =>
    by_cases hc : p c
    · simp [List.takeWhile_cons, hc, ih]
    · simp [List.takeWhile_cons, hc]

lemma takeWhile_eq_self_of_all {p : Char → Bool} (l : Str)
    (h : ∀ x ∈ l, p x = true) : l.takeWhile p = l := by
  have := takeWhile_append_all l [] h
  simpa using this

/-- The `k`-th line of `content.split('\n')`, for `k` the number of
newlines before position `s`, is exactly the text of the line around
position `s`. -/
lemma pySplitNl_getD_eq : ∀ (cs : Str) (s : Nat), s ≤ cs.length →
    (pySplitNl cs).getD (countNl (cs.take s)) [] = specLineText cs s := by
  intro cs
  induction cs with
  | nil =>
    intro s hs
    have hz : s = 0 := by simpa using hs
    subst hz
    rfl
  | cons c r ih =>
    intro s hs
    cases s with
    | zero =>
      show (pySplitNl (c :: r)).getD 0 [] = specLineText (c :: r) 0
      rw [pySplitNl_getD_zero]
      unfold specLineText
      simp
    | succ s' =>
      have hs' : s' ≤ r.length := by simpa using hs
      have htake : (c :: r).take (s' + 1) = c :: r.take s' := rfl
      by_cases hc : c = '\n'
      · subst hc
        rw [htake, countNl_cons, if_pos rfl]
        show (pySplitNl ('\n' :: r)).getD (countNl (r.take s') + 1) [] = _
        unfold pySplitNl
        rw [if_pos rfl]
        rw [List.getD_cons_succ, ih s' hs']
        unfold specLineText
        have hrt : ((('\n' :: r).take (s' + 1)).reverse).takeWhile (· != '\n') =
            ((r.take s').reverse).takeWhile (· != '\n') := by
          rw [htake, List.reverse_cons, takeWhile_append_single_false (by simp)]
        rw [hrt]
        rfl
      · rw [htake, countNl_cons, if_neg hc]
        show (pySplitNl (c :: r)).getD (countNl (r.take s') + 0) [] = _
        unfold pySplitNl
        rw [if_neg hc]
        cases h : pySplitNl r with
        | nil => exact absurd h (pySplitNl_ne_nil r)
        | cons l ls =>
          rw [Nat.add_zero]
          cases hn : countNl (r.take s') with
          | zero =>
            rw [List.getD_cons_zero]
            have hl : l = r.takeWhile (· != '\n') := by
              have h0 := pySplitNl_getD_zero r
              rw [h] at h0
              simpa using h0
            have hnone : ∀ x ∈ r.take s', (x != '\n') = true := by
              intro x hx
              have := List.countP_eq_zero.mp hn x hx
              simpa using this
            unfold specLineText
            rw [htake, List.reverse_cons,
              takeWhile_append_all _ [c] (fun x hx =>
                hnone x (by simpa using List.mem_reverse.mp hx)),
              List.takeWhile_cons, if_pos (by simp [hc]), List.takeWhile_nil,
              List.reverse_append, List.reverse_reverse]
            have hdrop : (c :: r).drop (s' + 1) = r.drop s' := rfl
            rw [hdrop, hl]
            show c :: r.takeWhile (· != '\n') =
              ([c] ++ r.take s') ++ (r.drop s').takeWhile (· != '\n')
            rw [List.append_assoc]
            show c :: r.takeWhile (· != '\n') =
              [c] ++ (r.take s' ++ (r.drop s').takeWhile (· != '\n'))
            rw [← takeWhile_append_all _ _ hnone, List.take_append_drop]
            rfl
          | succ m =>
            rw [List.getD_cons_succ]
            have hih := ih s' hs'
            rw [h, hn, List.getD_cons_succ] at hih
            rw [hih]
            unfold specLineText
            have hex : ∃ x ∈ (r.take s').reverse, (x != '\n') = false := by
              have hpos : 0 < List.countP (fun x => x == '\n') (r.take s') := by
                have : countNl (r.take s') = m + 1 := hn
                unfold countNl at this
                omega
              obtain ⟨x, hx, hpx⟩ := List.countP_pos_iff.mp hpos
              exact ⟨x, List.mem_reverse.mpr hx, by simpa using hpx⟩
            have hrt : (((c :: r).take (s' + 1)).reverse).takeWhile (· != '\n') =
                ((r.take s').reverse).takeWhile (· != '\n') := by
              rw [htake, List.reverse_cons, takeWhile_append_stop _ [c] hex]
            rw [hrt]
            rfl

lemma countNl_take_le (cs : Str) (s : Nat) : countNl (cs.take s) ≤ countNl cs :=
  List.Sublist.countP_le _ (List.take_sublist s cs)

/-- C7: for every pattern match reported by `re.finditer`, the finding's
1-based line number is the count of newlines strictly before the match
start plus one, and its `original_line` is the exact text of that line
(the characters between the surrounding newlines), trimmed. -/
theorem C7_finding_line_and_text (path content : Str) (p : PatternInfo)
    (s e : Nat) (hm : (s, e) ∈ pyFinditer p.re content) :
    (mkIssue path content p s).line_number = countNl (content.take s) + 1
  ∧ (mkIssue path content p s).original_line = pyStrip (specLineText content s) := by
  have hs : s ≤ content.length := (pyFinditer_mem hm).1
  refine ⟨rfl, ?_⟩
  show (if countNl (content.take s) + 1 ≤ (pySplitNl content).length
      then pyStrip ((pySplitNl content).getD (countNl (content.take s) + 1 - 1) [])
      else []) = pyStrip (specLineText content s)
  rw [if_pos (by
    rw [length_pySplitNl]
    have := countNl_take_le content s
    omega)]
  rw [Nat.add_sub_cancel, pySplitNl_getD_eq content s hs]

/-- Placeholder pattern record used as a `getD` default. -/
def defaultPattern : PatternInfo :=
  { name := [], re := .eps, severity := [], description := [],
    cost_impact := [], fix_template := [] }

theorem C7_finding_line_and_text_witness :
    (9, 23) ∈ pyFinditer (patterns.getD 1 defaultPattern).re c36Content
  ∧ (mkIssue examplePath c36Content (patterns.getD 1 defaultPattern) 9).line_number =
      countNl (c36Content.take 9) + 1
  ∧ (mkIssue examplePath c36Content (patterns.getD 1 defaultPattern) 9).original_line =
      pyStrip (specLineText c36Content 9) :=
  ⟨by decide,
   C7_finding_line_and_text examplePath c36Content (patterns.getD 1 defaultPattern)
     9 23 (by decide)⟩

/-!
## Claim C4: comment suppression

First: soundness and minimality/maximality of the embedded `str.find` /
`str.rfind` helpers, then the position of a match is shown to start with a
character that can be neither `*` nor `/` (every pattern starts with a
letter or `(`), and finally the two comment conditions of the claim imply
`_is_in_comment` returns `True`.
-/

lemma find2Aux_sound {a b : Char} :
    ∀ (l : Str) (j q : Nat), find2Aux a b l j = some q →
      j ≤ q ∧ l[q - j]? = some a ∧ l[q - j + 1]? = some b := by
  intro l
  induction l with
  | nil => intro j q h; simp [find2Aux] at h
  | cons c t ih =>
    intro j q h
    cases t with
    | nil => simp [find2Aux] at h
    | cons d rest =>
      unfold find2Aux at h
      by_cases hcd : c = a ∧ d = b
      · rw [if_pos hcd] at h
        cases h
        refine ⟨Nat.le_refl _, ?_, ?_⟩ <;> simp [hcd.1, hcd.2]
      · rw [if_neg hcd] at h
        obtain ⟨hle, h1, h2⟩ := ih (j + 1) q h
        have hq : q - j = (q - (j + 1)) + 1 := by omega
        refine ⟨by omega, ?_, ?_⟩
        · rw [hq]; simpa using h1
        · rw [hq]; simpa using h2

lemma find2Aux_le {a b : Char} :
    ∀ (l : Str) (j p : Nat), l[p]? = some a → l[p + 1]? = some b →
      ∃ q, find2Aux a b l j = some q ∧ q ≤ j + p := by
  intro l
  induction l with
  | nil => intro j p hp _; simp at hp
  | cons c t ih =>
    intro j p hp hp1
    cases t with
    | nil =>
      cases p with
      | zero => simp at hp1
      | succ p' =>
        rw [List.getElem?_cons_succ] at hp
        simp at hp
    | cons d rest =>
      unfold find2Aux
      by_cases hcd : c = a ∧ d = b
      · rw [if_pos hcd]; exact ⟨j, rfl, Nat.le_add_right _ _⟩
      · rw [if_neg hcd]
        cases p with
        | zero =>
          rw [List.getElem?_cons_zero] at hp
          rw [List.getElem?_cons_succ, List.getElem?_cons_zero] at hp1
          exact absurd ⟨by injection hp, by injection hp1⟩ hcd
        | succ p' =>
          rw [List.getElem?_cons_succ] at hp hp1
          obtain ⟨q, hq, hle⟩ := ih (j + 1) p' hp hp1
          exact ⟨q, hq, by omega⟩

lemma find2From_sound {cs : Str} {a b : Char} {i q : Nat}
    (h : find2From cs a b i = some q) :
    i ≤ q ∧ cs[q]? = some a ∧ cs[q + 1]? = some b := by
  obtain ⟨hle, h1, h2⟩ := find2Aux_sound _ _ _ h
  rw [List.getElem?_drop] at h1 h2
  refine ⟨hle, ?_, ?_⟩
  · rw [← h1]; congr 1; omega
  · rw [← h2]; congr 1; omega

lemma find2From_le {cs : Str} {a b : Char} {i p : Nat}
    (hp : cs[p]? = some a) (hp1 : cs[p + 1]? = some b) (hip : i ≤ p) :
    ∃ q, find2From cs a b i = some q ∧ q ≤ p := by
  have h1 : (cs.drop i)[p - i]? = some a := by
    rw [List.getElem?_drop]
    rw [← hp]; congr 1; omega
  have h2 : (cs.drop i)[p - i + 1]? = some b := by
    rw [List.getElem?_drop]
    rw [← hp1]; congr 1; omega
  obtain ⟨q, hq, hle⟩ := find2Aux_le (cs.drop i) i (p - i) h1 h2
  exact ⟨q, hq, by omega⟩

lemma find2Last_sound {a b : Char} :
    ∀ (l : Str) (j : Nat) (acc : Option Nat) (q : Nat),
      find2Last a b l j acc = some q →
      acc = some q ∨ (j ≤ q ∧ l[q - j]? = some a ∧ l[q - j + 1]? = some b) := by
  intro l
  induction l with
  | nil => intro j acc q h; exact .inl h
  | cons c t ih =>
    intro j acc q h
    cases t with
    | nil => exact .inl h
    | cons d rest =>
      unfold find2Last at h
      rcases ih (j + 1) _ q h with hacc | ⟨hle, h1, h2⟩
      · by_cases hcd : c = a ∧ d = b
        · rw [if_pos hcd] at hacc
          cases hacc
          refine .inr ⟨Nat.le_refl _, ?_, ?_⟩ <;> simp [hcd.1, hcd.2]
        · rw [if_neg hcd] at hacc
          exact .inl hacc
      · have hq : q - j = (q - (j + 1)) + 1 := by omega
        refine .inr ⟨by omega, ?_, ?_⟩
        · rw [hq]; simpa using h1
        · rw [hq]; simpa using h2

lemma find2Last_acc_ge {a b : Char} :
    ∀ (l : Str) (j x : Nat), x ≤ j →
      ∃ q, find2Last a b l j (some x) = some q ∧ x ≤ q := by
  intro l
  induction l with
  | nil => intro j x hx; exact ⟨x, rfl, Nat.le_refl _⟩
  | cons c t ih =>
    intro j x hx
    cases t with
    | nil => exact ⟨x, rfl, Nat.le_refl _⟩
    | cons d rest =>
      unfold find2Last
      by_cases hcd : c = a ∧ d = b
      · rw [if_pos hcd]
        obtain ⟨q, hq, hle⟩ := ih (j + 1) j (Nat.le_succ _)
        exact ⟨q, hq, by omega⟩
      · rw [if_neg hcd]
        obtain ⟨q, hq, hle⟩ := ih (j + 1) x (by omega)
        exact ⟨q, hq, hle⟩

lemma find2Last_max {a b : Char} :
    ∀ (l : Str) (j : Nat) (acc : Option Nat) (rp : Nat),
      l[rp]? = some a → l[rp + 1]? = some b →
      ∃ q, find2Last a b l j acc = some q ∧ j + rp ≤ q := by
  intro l
  induction l with
  | nil => intro j acc rp hp _; simp at hp
  | cons c t ih =>
    intro j acc rp hp hp1
    cases t with
    | nil =>
      cases rp with
      | zero => simp at hp1
      | succ rp' =>
        rw [List.getElem?_cons_succ] at hp
        simp at hp
    | cons d rest =>
      unfold find2Last
      cases rp with
      | zero =>
        rw [List.getElem?_cons_zero] at hp
        rw [List.getElem?_cons_succ, List.getElem?_cons_zero] at hp1
        rw [if_pos ⟨by injection hp, by injection hp1⟩]
        obtain ⟨q, hq, hle⟩ := find2Last_acc_ge (d :: rest) (j + 1) j (Nat.le_succ _)
        exact ⟨q, hq, by omega⟩
      | succ rp' =>
        rw [List.getElem?_cons_succ] at hp hp1
        obtain ⟨q, hq, hle⟩ := ih (j + 1) _ rp' hp hp1
        exact ⟨q, hq, by omega⟩

lemma rfind2Before_sound {cs : Str} {a b : Char} {pos q : Nat}
    (h : rfind2Before cs a b pos = some q) :
    q + 2 ≤ pos ∧ cs[q]? = some a ∧ cs[q + 1]? = some b := by
  rcases find2Last_sound _ _ _ _ h with hacc | ⟨_, h1, h2⟩
  · cases hacc
  · rw [Nat.sub_zero] at h1 h2
    obtain ⟨hq1, _⟩ := List.getElem?_eq_some_iff.mp h2
    have hlt : q + 1 < pos := by
      have := List.length_take pos cs
      omega
    refine ⟨by omega, ?_, ?_⟩
    · rw [← List.getElem?_take_of_lt (by omega : q < pos)]; exact h1
    · rw [← List.getElem?_take_of_lt hlt]; exact h2

lemma rfind2Before_max {cs : Str} {a b : Char} {pos p : Nat}
    (hp : cs[p]? = some a) (hp1 : cs[p + 1]? = some b) (hlt : p + 2 ≤ pos) :
    ∃ q, rfind2Before cs a b pos = some q ∧ p ≤ q := by
  have h1 : (cs.take pos)[p]? = some a := by
    rw [List.getElem?_take_of_lt (by omega)]; exact hp
  have h2 : (cs.take pos)[p + 1]? = some b := by
    rw [List.getElem?_take_of_lt (by omega)]; exact hp1
  obtain ⟨q, hq, hle⟩ := find2Last_max (cs.take pos) 0 none p h1 h2
  exact ⟨q, hq, by omega⟩

lemma findChAux_sound {c : Char} :
    ∀ (l : Str) (j q : Nat), findChAux c l j = some q →
      j ≤ q ∧ l[q - j]? = some c := by
  intro l
  induction l with
  | nil => intro j q h; simp [findChAux] at h
  | cons d t ih =>
    intro j q h
    unfold findChAux at h
    by_cases hd : d = c
    · rw [if_pos hd] at h
      cases h
      exact ⟨Nat.le_refl _, by simp [hd]⟩
    · rw [if_neg hd] at h
      obtain ⟨hle, h1⟩ := ih (j + 1) q h
      have hq : q - j = (q - (j + 1)) + 1 := by omega
      exact ⟨by omega, by rw [hq]; simpa using h1⟩

lemma findCharFrom_sound {cs : Str} {c : Char} {i q : Nat}
    (h : findCharFrom cs c i = some q) : i ≤ q ∧ cs[q]? = some c := by
  obtain ⟨hle, h1⟩ := findChAux_sound _ _ _ h
  rw [List.getElem?_drop] at h1
  exact ⟨hle, by rw [← h1]; congr 1; omega⟩

lemma findChLast_sound {c : Char} :
    ∀ (l : Str) (j : Nat) (acc : Option Nat) (q : Nat),
      findChLast c l j acc = some q →
      acc = some q ∨ (j ≤ q ∧ l[q - j]? = some c) := by
  intro l
  induction l with
  | nil => intro j acc q h; exact .inl h
  | cons d t ih =>
    intro j acc q h
    unfold findChLast at h
    rcases ih (j + 1) _ q h with hacc | ⟨hle, h1⟩
    · by_cases hd : d = c
      · rw [if_pos hd] at hacc
        cases hacc
        exact .inr ⟨Nat.le_refl _, by simp [hd]⟩
      · rw [if_neg hd] at hacc
        exact .inl hacc
    · have hq : q - j = (q - (j + 1)) + 1 := by omega
      exact .inr ⟨by omega, by rw [hq]; simpa using h1⟩

lemma rfindCharBefore_sound {cs : Str} {c : Char} {pos q : Nat}
    (h : rfindCharBefore cs c pos = some q) : q < pos ∧ cs[q]? = some c := by
  rcases findChLast_sound _ _ _ _ h with hacc | ⟨_, h1⟩
  · cases hacc
  · rw [Nat.sub_zero] at h1
    obtain ⟨hq, _⟩ := List.getElem?_eq_some_iff.mp h1
    have hlt : q < pos := by
      have := List.length_take pos cs
      omega
    exact ⟨hlt, by rw [← List.getElem?_take_of_lt hlt]; exact h1⟩

lemma reSeq_cons (r : RE) (rs : List RE) : reSeq (r :: rs) = .seq r (reSeq rs) := rfl

lemma matchAt_ends_ne {r : RE} {cs : Str} {i e : Nat}
    (h : matchAt r cs i = some e) : ends r cs i ≠ [] := by
  intro hnil
  rw [matchAt, hnil] at h
  cases h

lemma ends_seq_mem {r₁ r₂ : RE} {cs : Str} {i j : Nat}
    (h : j ∈ ends (.seq r₁ r₂) cs i) :
    ∃ k ∈ ends r₁ cs i, j ∈ ends r₂ cs k := by
  simpa [ends, List.mem_flatMap] using h

lemma ends_alt_mem {r₁ r₂ : RE} {cs : Str} {i j : Nat}
    (h : j ∈ ends (.alt r₁ r₂) cs i) :
    j ∈ ends r₁ cs i ∨ j ∈ ends r₂ cs i := by
  simpa [ends] using h

lemma ciEq_good {c x : Char} (h : ciEq c x = true)
    (h1 : pyUpper x ≠ '*') (h2 : pyUpper x ≠ '/') : c ≠ '*' ∧ c ≠ '/' := by
  have heq : pyUpper c = pyUpper x := by
    simpa [ciEq] using h
  constructor <;> rintro rfl
  · exact h1 (by rw [← heq]; decide)
  · exact h2 (by rw [← heq]; decide)

/-- A match of a pattern headed by a literal starts with that literal's
first character (case-insensitively). -/
lemma good_start_lit {cs : Str} {i j : Nat} {d : Char} {ds : Str} {rest : List RE}
    (hj : j ∈ ends (reSeq (.lit (d :: ds) :: rest)) cs i)
    (h1 : pyUpper d ≠ '*') (h2 : pyUpper d ≠ '/') :
    ∃ c, cs[i]? = some c ∧ c ≠ '*' ∧ c ≠ '/' := by
  rw [reSeq_cons] at hj
  obtain ⟨k, hk, _⟩ := ends_seq_mem hj
  obtain ⟨_, hpre⟩ := ends_lit_mem hk
  obtain ⟨c, hc, hci⟩ := ciPrefixAt_head hpre
  exact ⟨c, hc, ciEq_good hci h1 h2⟩

lemma good_start_wb_lit {cs : Str} {i j : Nat} {d : Char} {ds : Str} {rest : List RE}
    (hj : j ∈ ends (reSeq (.wb :: .lit (d :: ds) :: rest)) cs i)
    (h1 : pyUpper d ≠ '*') (h2 : pyUpper d ≠ '/') :
    ∃ c, cs[i]? = some c ∧ c ≠ '*' ∧ c ≠ '/' := by
  rw [reSeq_cons] at hj
  obtain ⟨k, hk, hj2⟩ := ends_seq_mem hj
  obtain ⟨rfl, _⟩ := ends_wb_mem hk
  exact good_start_lit hj2 h1 h2

/-- Every pattern of the catalog can only match starting at a character
that is neither `*` nor `/` (each pattern begins with a letter or `(`). -/
lemma pattern_good_start {p : PatternInfo} (hp : p ∈ patterns) {cs : Str}
    {i e : Nat} (h : matchAt p.re cs i = some e) :
    ∃ c, cs[i]? = some c ∧ c ≠ '*' ∧ c ≠ '/' := by
  obtain ⟨j, hj⟩ := List.exists_mem_of_ne_nil _ (matchAt_ends_ne h)
  have hsel : s2l "SELECT" = 'S' :: s2l "ELECT" := rfl
  fin_cases hp
  · rw [show selectStarRE = reSeq [.wb, .lit ('S' :: s2l "ELECT"), wsP, litS "*", .wb] from rfl] at hj
    exact good_start_wb_lit hj (by decide) (by decide)
  · rw [show missingWhereRE = reSeq [.wb, .lit ('F' :: s2l "ROM"), wsP,
      .opt (reSeq [.plus .word, litS "."]), tableAltRE, .wb,
      .nla (reSeq [.star .any, .wb, litS "WHERE", .wb])] from rfl] at hj
    exact good_start_wb_lit hj (by decide) (by decide)
  · rw [show distinctRE = reSeq [.wb, .lit ('S' :: s2l "ELECT"), wsP, litS "DISTINCT", .wb,
      .nla (reSeq [.star .any, .wb, litS "GROUP", wsP, litS "BY", .wb])] from rfl] at hj
    exact good_start_wb_lit hj (by decide) (by decide)
  · rw [show orderRE = reSeq [.wb, .lit ('O' :: s2l "RDER"), wsP, litS "BY", .wb,
      .nla (reSeq [.star .any, .wb, litS "LIMIT", .wb]),
      .nla (reSeq [.star .any, .wb, litS "TOP", .wb])] from rfl] at hj
    exact good_start_wb_lit hj (by decide) (by decide)
  · rw [show unionRE = reSeq [.wb, .lit ('U' :: s2l "NION"), wsP,
      .nla (reSeq [litS "ALL", .wb])] from rfl] at hj
    exact good_start_wb_lit hj (by decide) (by decide)
  · rw [show createDropRE = reSeq [.wb,
      .alt (reSeq [.lit ('C' :: s2l "REATE"), wsP, orReplaceOpt, litS "TABLE"])
           (reSeq [.lit ('D' :: s2l "ROP"), wsP, litS "TABLE"]), .wb] from rfl] at hj
    rw [reSeq_cons] at hj
    obtain ⟨k, hk, hj2⟩ := ends_seq_mem hj
    obtain ⟨rfl, _⟩ := ends_wb_mem hk
    rw [reSeq_cons] at hj2
    obtain ⟨k', hk', _⟩ := ends_seq_mem hj2
    rcases ends_alt_mem hk' with hbr | hbr
    · exact good_start_lit hbr (by decide) (by decide)
    · exact good_start_lit hbr (by decide) (by decide)
  · rw [show createFuncRE = reSeq [.wb, .lit ('C' :: s2l "REATE"), wsP, orReplaceOpt,
      .alt (litS "FUNCTION") (litS "PROCEDURE"), .wb] from rfl] at hj
    exact good_start_wb_lit hj (by decide) (by decide)
  · rw [show varcharRE = reSeq [.wb, .lit ('V' :: s2l "ARCHAR"), wsS,
      .nla (reSeq [wsS, litS "(", wsS, .plus .digit, wsS, litS ")"])] from rfl] at hj
    exact good_start_wb_lit hj (by decide) (by decide)
  · rw [show nestedRE = reSeq [.lit ('(' :: []), wsS, litS "SELECT", .star .any, litS "(",
      wsS, litS "SELECT", .star .any, litS "FROM", .star .any, litS ")", .star .any,
      litS "FROM", .star .any, litS ")"] from rfl] at hj
    exact good_start_lit hj (by decide) (by decide)
  · rw [show cursorRE = reSeq [.wb,
      .alt (reSeq [.lit ('D' :: s2l "ECLARE"), .star .any, litS "CURSOR"])
        (.alt (reSeq [.lit ('F' :: s2l "OR"), .star .any, litS "CURSOR"])
          (.alt (reSeq [.lit ('O' :: s2l "PEN"), wsP, litS "CURSOR"])
            (reSeq [.lit ('F' :: s2l "ETCH"), wsP, litS "FROM"]))), .wb] from rfl] at hj
    rw [reSeq_cons] at hj
    obtain ⟨k, hk, hj2⟩ := ends_seq_mem hj
    obtain ⟨rfl, _⟩ := ends_wb_mem hk
    rw [reSeq_cons] at hj2
    obtain ⟨k', hk', _⟩ := ends_seq_mem hj2
    rcases ends_alt_mem hk' with hbr | hbr'
    · exact good_start_lit hbr (by decide) (by decide)
    rcases ends_alt_mem hbr' with hbr | hbr'
    · exact good_start_lit hbr (by decide) (by decide)
    rcases ends_alt_mem hbr' with hbr | hbr
    · exact good_start_lit hbr (by decide) (by decide)
    · exact good_start_lit hbr (by decide) (by decide)
  · rw [show insertsRE = reSeq [.lit ('I' :: s2l "NSERT"), wsP, litS "INTO", .star .any,
      litS "VALUES", wsS, litS "(", .star (.notCh ')'), litS ")", wsS, litS ";",
      .star .any, litS "INSERT", wsP, litS "INTO"] from rfl] at hj
    exact good_start_lit hj (by decide) (by decide)

/-- A `--` earlier on the match's line makes `_is_in_comment` return true. -/
lemma singleLineCommentCheck_of_dashes {cs : Str} {pos p₀ : Nat}
    (hlt : p₀ + 1 < pos)
    (hd1 : cs[p₀]? = some '-') (hd2 : cs[p₀ + 1]? = some '-')
    (hnl : ∀ k, p₀ ≤ k → k < pos → cs[k]? ≠ some '\n')
    (hpos : pos < cs.length) :
    singleLineCommentCheck cs pos = true := by
  have hls_le : lineStartOf cs pos ≤ p₀ := by
    unfold lineStartOf
    cases hr : rfindCharBefore cs '\n' pos with
    | none => exact Nat.zero_le _
    | some j =>
      obtain ⟨hjp, hjc⟩ := rfindCharBefore_sound hr
      have hjlt : j < p₀ := by
        by_contra hge
        exact hnl j (by omega) hjp hjc
      show j + 1 ≤ p₀
      omega
  have hle_gt : p₀ + 1 < lineEndOf cs pos := by
    unfold lineEndOf
    cases hf : findCharFrom cs '\n' pos with
    | none =>
      show p₀ + 1 < cs.length - 1
      omega
    | some k =>
      obtain ⟨hk, _⟩ := findCharFrom_sound hf
      show p₀ + 1 < k
      omega
  have h1 : (lineContentOf cs pos)[p₀ - lineStartOf cs pos]? = some '-' := by
    unfold lineContentOf
    rw [List.getElem?_drop]
    rw [show lineStartOf cs pos + (p₀ - lineStartOf cs pos) = p₀ by omega]
    rw [List.getElem?_take_of_lt (by omega)]
    exact hd1
  have h2 : (lineContentOf cs pos)[p₀ - lineStartOf cs pos + 1]? = some '-' := by
    unfold lineContentOf
    rw [List.getElem?_drop]
    rw [show lineStartOf cs pos + (p₀ - lineStartOf cs pos + 1) = p₀ + 1 by omega]
    rw [List.getElem?_take_of_lt (by omega)]
    exact hd2
  obtain ⟨q, hq, hqle⟩ := find2From_le h1 h2 (Nat.zero_le _)
  unfold singleLineCommentCheck
  rw [hq]
  simp only [decide_eq_true_eq]
  omega

/-- An unterminated block comment opener before the match makes
`_is_in_comment` return true, provided the match cannot start at `*` or
`/` (which holds for every pattern of the catalog). -/
lemma blockCommentCheck_of_opener {cs : Str} {pos o : Nat}
    (ho2 : o + 2 ≤ pos) (ho : cs[o]? = some '/') (ho1 : cs[o + 1]? = some '*')
    (hnear : ∀ o', o < o' → o' + 2 ≤ pos →
      ¬(cs[o']? = some '/' ∧ cs[o' + 1]? = some '*'))
    (hnoclose : ∀ k, o ≤ k → k + 2 ≤ pos →
      ¬(cs[k]? = some '*' ∧ cs[k + 1]? = some '/'))
    (hstart : ∃ c, cs[pos]? = some c ∧ c ≠ '*' ∧ c ≠ '/') :
    blockCommentCheck cs pos = true := by
  obtain ⟨q, hq, hqo⟩ := rfind2Before_max ho ho1 ho2
  have hqe : q = o := by
    obtain ⟨hq2, hqa, hqb⟩ := rfind2Before_sound hq
    by_contra hne
    exact hnear q (by omega) hq2 ⟨hqa, hqb⟩
  rw [hqe] at hq
  unfold blockCommentCheck
  rw [hq]
  show (match find2From cs '*' '/' o with
    | none => true
    | some cend => decide (cend > pos)) = true
  cases hf : find2From cs '*' '/' o with
  | none => rfl
  | some cend =>
    obtain ⟨hoc, hca, hcb⟩ := find2From_sound hf
    have hnle : ¬ (cend + 2 ≤ pos) := fun hcle => hnoclose cend hoc hcle ⟨hca, hcb⟩
    obtain ⟨c, hc, hcs, hcsl⟩ := hstart
    have hgt : cend > pos := by
      rcases Nat.lt_trichotomy cend pos with hlt | heq | hgt
      · have hpe : cend + 1 = pos := by omega
        rw [hpe] at hcb
        rw [hcb] at hc
        exact absurd (by injection hc with h; exact h.symm) hcsl
      · rw [heq] at hca
        rw [hca] at hc
        exact absurd (by injection hc with h; exact h.symm) hcs
      · exact hgt
    simp [hgt]

/-- Claim-side condition (C4): the match position lies after a `--`
sequence earlier on the same line. -/
def inLineComment (cs : Str) (pos : Nat) : Prop :=
  ∃ p < pos, p + 1 < pos ∧ cs[p]? = some '-' ∧ cs[p + 1]? = some '-' ∧
    ∀ k < pos, p ≤ k → cs[k]? ≠ some '\n'

/-- Claim-side condition (C4): the match position lies inside a block
comment — after a `/*` opener that is the nearest preceding one and has no
`*/` closer before the match position. -/
def inBlockComment (cs : Str) (pos : Nat) : Prop :=
  ∃ o < pos, o + 2 ≤ pos ∧ cs[o]? = some '/' ∧ cs[o + 1]? = some '*' ∧
    (∀ j < pos, o < j → j + 2 ≤ pos →
      ¬(cs[j]? = some '/' ∧ cs[j + 1]? = some '*')) ∧
    (∀ k < pos, o ≤ k → k + 2 ≤ pos →
      ¬(cs[k]? = some '*' ∧ cs[k + 1]? = some '/'))

instance (cs : Str) (pos : Nat) : Decidable (inLineComment cs pos) := by
  unfold inLineComment; infer_instance

set_option synthInstance.maxSize 512 in
instance (cs : Str) (pos : Nat) : Decidable (inBlockComment cs pos) := by
  unfold inBlockComment; infer_instance

/-- C4: a pattern match whose start position lies after a `--` on its own
line, or inside a block comment whose nearest preceding opener is not
closed before the match, is discarded: `_is_in_comment` holds and the
match does not survive into the kept (finding-producing) match list. -/
theorem C4_comment_suppression (content : Str) (p : PatternInfo) (s e : Nat)
    (hp : p ∈ patterns) (hm : (s, e) ∈ pyFinditer p.re content)
    (hc : inLineComment content s ∨ inBlockComment content s) :
    isInComment content s = true ∧ (p, s, e) ∉ keptMatches content := by
  have hmatch := (pyFinditer_mem hm).2
  have hstart := pattern_good_start hp hmatch
  have hcom : isInComment content s = true := by
    rcases hc with ⟨p₀, _, h1, h2, h3, h4⟩ | ⟨o, _, h1, h2, h3, h4, h5⟩
    · have hpos : s < content.length := by
        obtain ⟨c, hcc, _⟩ := hstart
        obtain ⟨h, _⟩ := List.getElem?_eq_some_iff.mp hcc
        exact h
      unfold isInComment
      rw [singleLineCommentCheck_of_dashes h1 h2 h3
        (fun k hk hklt => h4 k hklt hk) hpos]
      rfl
    · unfold isInComment
      rw [blockCommentCheck_of_opener h1 h2 h3
        (fun o' ho' hole => h4 o' (by omega) ho' hole)
        (fun k hk hkle => h5 k (by omega) hk hkle)
        hstart]
      simp
  refine ⟨hcom, fun hk => ?_⟩
  simp only [keptMatches, List.mem_filter, Bool.not_eq_true'] at hk
  rw [hcom] at hk
  cases hk.2

def c4Content : Str := s2l "-- A UNION B\n"

theorem C4_comment_suppression_witness :
    (patterns.getD 4 defaultPattern) ∈ patterns
  ∧ (5, 11) ∈ pyFinditer (patterns.getD 4 defaultPattern).re c4Content
  ∧ inLineComment c4Content 5
  ∧ isInComment c4Content 5 = true
  ∧ ((patterns.getD 4 defaultPattern), 5, 11) ∉ keptMatches c4Content :=
  ⟨by decide, by decide, by decide,
   C4_comment_suppression c4Content (patterns.getD 4 defaultPattern) 5 11
     (by decide) (by decide) (Or.inl (by decide))⟩

/-!
## Claim C5: the union rule

Full characterization of matches of `\bUNION\s+(?!ALL\b)`.
-/

lemma ends_plus_mem {cl : CharClass} {cs : Str} {i j : Nat}
    (h : j ∈ ends (.plus cl) cs i) :
    ∃ t, t < runLen cs cl i ∧ j = i + 1 + t := by
  simp only [ends, List.mem_map, List.mem_reverse, List.mem_range] at h
  obtain ⟨t, ht, rfl⟩ := h
  exact ⟨t, ht, rfl⟩

lemma mem_ends_plus {cl : CharClass} {cs : Str} {i t : Nat}
    (ht : t < runLen cs cl i) : i + 1 + t ∈ ends (.plus cl) cs i := by
  simp only [ends, List.mem_map, List.mem_reverse, List.mem_range]
  exact ⟨t, ht, rfl⟩

lemma ends_nla_mem {r : RE} {cs : Str} {i j : Nat} (h : j ∈ ends (.nla r) cs i) :
    j = i ∧ ends r cs i = [] := by
  simp only [ends] at h
  split at h
  · rename_i he
    rcases List.mem_singleton.mp h with rfl
    exact ⟨rfl, he⟩
  · simp at h

lemma mem_ends_nla {r : RE} {cs : Str} {i : Nat} (he : ends r cs i = []) :
    i ∈ ends (.nla r) cs i := by
  simp [ends, he]

lemma ends_eps_mem {cs : Str} {i j : Nat} (h : j ∈ ends .eps cs i) : j = i := by
  simpa [ends] using h

lemma mem_ends_seq {r₁ r₂ : RE} {cs : Str} {i k j : Nat}
    (hk : k ∈ ends r₁ cs i) (hj : j ∈ ends r₂ cs k) :
    j ∈ ends (.seq r₁ r₂) cs i := by
  simp only [ends, List.mem_flatMap]
  exact ⟨k, hk, hj⟩

lemma mem_ends_wb {cs : Str} {i : Nat} (h : isWordB cs i = true) :
    i ∈ ends .wb cs i := by simp [ends, h]

lemma mem_ends_lit {s : Str} {cs : Str} {i : Nat} (h : ciPrefixAt cs i s = true) :
    i + s.length ∈ ends (.lit s) cs i := by simp [ends, h]

lemma mem_ends_eps {cs : Str} {i : Nat} : i ∈ ends .eps cs i := by simp [ends]

lemma runLen_zero_of_none {cs : Str} {cl : CharClass} {i : Nat}
    (h : cs[i]? = none) : runLen cs cl i = 0 := by
  unfold runLen
  have hle : cs.length ≤ i := List.getElem?_eq_none_iff.mp h
  rw [List.drop_eq_nil_of_le hle]
  rfl

lemma runLen_zero_of_fail {cs : Str} {cl : CharClass} {i : Nat} {c : Char}
    (hc : cs[i]? = some c) (ht : cl.test c = false) : runLen cs cl i = 0 := by
  unfold runLen
  obtain ⟨hlt, hg⟩ := List.getElem?_eq_some_iff.mp hc
  rw [List.drop_eq_getElem_cons hlt, hg, List.takeWhile_cons, if_neg (by simp [ht])]
  rfl

lemma runLen_succ_of_test {cs : Str} {cl : CharClass} {i : Nat} {c : Char}
    (hc : cs[i]? = some c) (ht : cl.test c = true) :
    runLen cs cl i = runLen cs cl (i + 1) + 1 := by
  unfold runLen
  obtain ⟨hlt, hg⟩ := List.getElem?_eq_some_iff.mp hc
  rw [List.drop_eq_getElem_cons hlt, hg, List.takeWhile_cons, if_pos ht]
  simp

lemma runLen_test {cs : Str} {cl : CharClass} :
    ∀ (k i : Nat), k < runLen cs cl i →
      ∃ c, cs[i + k]? = some c ∧ cl.test c = true := by
  intro k
  induction k with
  | zero =>
    intro i hk
    cases hc : cs[i]? with
    | none => rw [runLen_zero_of_none hc] at hk; omega
    | some c =>
      cases ht : cl.test c with
      | false => rw [runLen_zero_of_fail hc ht] at hk; omega
      | true => exact ⟨c, by simpa using hc, ht⟩
  | succ k' ih =>
    intro i hk
    cases hc : cs[i]? with
    | none => rw [runLen_zero_of_none hc] at hk; omega
    | some c =>
      cases ht : cl.test c with
      | false => rw [runLen_zero_of_fail hc ht] at hk; omega
      | true =>
        rw [runLen_succ_of_test hc ht] at hk
        obtain ⟨c', hc', ht'⟩ := ih (i + 1) (by omega)
        exact ⟨c', by rw [← hc']; congr 1; omega, ht'⟩

lemma isWsCh_cases {c : Char} (h : isWsCh c = true) :
    c = ' ' ∨ c = '\t' ∨ c = '\n' ∨ c = '\r' ∨ c = '\x0b' ∨ c = '\x0c' := by
  simp only [isWsCh, Bool.or_eq_true, beq_iff_eq] at h
  tauto

lemma ws_not_ciEq {c x : Char} (h : isWsCh c = true)
    (hx : x = 'A' ∨ x = 'U') : ciEq c x = false := by
  rcases isWsCh_cases h with rfl | rfl | rfl | rfl | rfl | rfl <;>
    rcases hx with rfl | rfl <;> decide

lemma ciEq_not_ws {c x : Char} (h : ciEq c x = true)
    (hx : x = 'A' ∨ x = 'U') : isWsCh c = false := by
  cases hw : isWsCh c with
  | false => rfl
  | true => rw [ws_not_ciEq hw hx] at h; cases h

lemma ciEq_U_unique {c : Char} (h : ciEq c 'U' = true) :
    ciEq c 'N' = false ∧ ciEq c 'I' = false ∧ ciEq c 'O' = false := by
  have heq : pyUpper c = 'U' := by
    have : pyUpper c = pyUpper 'U' := by simpa [ciEq] using h
    simpa using this
  refine ⟨?_, ?_, ?_⟩ <;> simp [ciEq, heq] <;> decide

/-- The lookahead body `ALL\b`. -/
lemma ends_allRE_eq (cs : Str) (q : Nat) :
    ends (reSeq [litS "ALL", .wb]) cs q =
      if ciPrefixAt cs q (s2l "ALL") = true ∧ isWordB cs (q + 3) = true
      then [q + 3] else [] := by
  have hL : s2l "ALL" = ['A', 'L', 'L'] := rfl
  by_cases hpre : ciPrefixAt cs q (s2l "ALL") = true
  · rw [hL] at hpre
    by_cases hwb : isWordB cs (q + 3) = true
    · rw [if_pos ⟨by rw [hL]; exact hpre, hwb⟩]
      show ends (.seq (litS "ALL") (.seq .wb .eps)) cs q = [q + 3]
      simp [ends, litS, hpre, hwb, s2l]
    · rw [if_neg (by tauto)]
      show ends (.seq (litS "ALL") (.seq .wb .eps)) cs q = []
      simp only [Bool.not_eq_true] at hwb
      simp [ends, litS, hpre, hwb, s2l]
  · rw [hL] at hpre
    rw [if_neg (by rw [hL]; tauto)]
    show ends (.seq (litS "ALL") (.seq .wb .eps)) cs q = []
    simp only [Bool.not_eq_true] at hpre
    simp [ends, litS, hpre, s2l]

/-- Decomposition of any match of `\bUNION\s+(?!ALL\b)`. -/
lemma unionRE_match_shape {cs : Str} {i j : Nat} (hj : j ∈ ends unionRE cs i) :
    isWordB cs i = true ∧ ciPrefixAt cs i (s2l "UNION") = true ∧
    ∃ t', t' < runLen cs .ws (i + 5) ∧ j = i + 6 + t' ∧
      ends (reSeq [litS "ALL", .wb]) cs (i + 6 + t') = [] := by
  rw [show unionRE = .seq .wb (.seq (.lit (s2l "UNION"))
    (.seq (.plus .ws) (.seq (.nla (reSeq [litS "ALL", .wb])) .eps))) from rfl] at hj
  obtain ⟨k₁, hk₁, hj₁⟩ := ends_seq_mem hj
  obtain ⟨rfl, hwb⟩ := ends_wb_mem hk₁
  obtain ⟨k₂, hk₂, hj₂⟩ := ends_seq_mem hj₁
  obtain ⟨hk₂e, hpre⟩ := ends_lit_mem hk₂
  rw [show (s2l "UNION").length = 5 from rfl] at hk₂e
  subst hk₂e
  obtain ⟨k₃, hk₃, hj₃⟩ := ends_seq_mem hj₂
  obtain ⟨t', ht', hk₃e⟩ := ends_plus_mem hk₃
  subst hk₃e
  obtain ⟨k₄, hk₄, hj₄⟩ := ends_seq_mem hj₃
  obtain ⟨rfl, hfail⟩ := ends_nla_mem hk₄
  have := ends_eps_mem hj₄
  subst this
  refine ⟨hwb, hpre, t', ht', by omega, ?_⟩
  have harith : ∀ n : Nat, n + 6 + t' = n + 5 + 1 + t' := fun n => by omega
  rw [harith]
  exact hfail

/-- Construction of a match of `\bUNION\s+(?!ALL\b)`. -/
lemma unionRE_match_construct {cs : Str} {i t' : Nat}
    (hwb : isWordB cs i = true) (hpre : ciPrefixAt cs i (s2l "UNION") = true)
    (ht' : t' < runLen cs .ws (i + 5))
    (hfail : ends (reSeq [litS "ALL", .wb]) cs (i + 6 + t') = []) :
    i + 6 + t' ∈ ends unionRE cs i := by
  rw [show unionRE = .seq .wb (.seq (.lit (s2l "UNION"))
    (.seq (.plus .ws) (.seq (.nla (reSeq [litS "ALL", .wb])) .eps))) from rfl]
  refine mem_ends_seq (mem_ends_wb hwb) ?_
  refine mem_ends_seq (by simpa using mem_ends_lit hpre) ?_
  refine mem_ends_seq (show i + 5 + 1 + t' ∈ _ from mem_ends_plus ht') ?_
  have he : i + 5 + 1 + t' = i + 6 + t' := by omega
  rw [he]
  exact mem_ends_seq (mem_ends_nla hfail) mem_ends_eps

lemma mem_of_matchAt {r : RE} {cs : Str} {i e : Nat}
    (h : matchAt r cs i = some e) : e ∈ ends r cs i := by
  unfold matchAt at h
  cases hl : ends r cs i with
  | nil => rw [hl] at h; cases h
  | cons a t =>
    rw [hl] at h
    injection h with h
    exact h ▸ List.mem_cons_self a t

lemma matchAt_isSome_of_mem {r : RE} {cs : Str} {i j : Nat}
    (hj : j ∈ ends r cs i) : ∃ e, matchAt r cs i = some e := by
  unfold matchAt
  cases hl : ends r cs i with
  | nil => rw [hl] at hj; cases hj
  | cons a t => exact ⟨a, rfl⟩

/-- Completeness of `re.finditer`: a match at `i` is reported provided no
earlier match swallows position `i`. -/
lemma finditerAux_complete {r : RE} {cs : Str} {i e₀ : Nat}
    (hi : i ≤ cs.length) (h : matchAt r cs i = some e₀)
    (hno : ∀ m e, m < i → matchAt r cs m = some e → max e (m + 1) ≤ i) :
    ∀ fuel j, j ≤ i → i < j + fuel → (i, e₀) ∈ finditerAux r cs fuel j := by
  intro fuel
  induction fuel with
  | zero => intro j hj hlt; omega
  | succ f ih =>
    intro j hj hlt
    rw [finditerAux]
    rw [if_neg (by omega)]
    by_cases hji : j = i
    · subst hji
      rw [h]
      exact List.mem_cons_self _ _
    · have hjlt : j < i := by omega
      cases hm : matchAt r cs j with
      | none => exact ih (j + 1) (by omega) (by omega)
      | some e' =>
        have hle := hno j e' hjlt hm
        refine List.mem_cons_of_mem _ (ih (max e' (j + 1)) hle ?_)
        have : j + 1 ≤ max e' (j + 1) := Nat.le_max_right _ _
        omega

lemma pyFinditer_complete {r : RE} {cs : Str} {i e₀ : Nat}
    (hi : i ≤ cs.length) (h : matchAt r cs i = some e₀)
    (hno : ∀ m e, m < i → matchAt r cs m = some e → max e (m + 1) ≤ i) :
    (i, e₀) ∈ pyFinditer r cs :=
  finditerAux_complete hi h hno _ 0 (Nat.zero_le _) (by omega)

/-- An earlier `\bUNION\s+(?!ALL\b)` match never swallows the `U` of a
later word `UNION`: such a match consumes `UNION` plus whitespace only. -/
lemma union_no_swallow {cs : Str} {i m e : Nat} (him : m < i)
    (hpre_i : ciPrefixAt cs i (s2l "UNION") = true)
    (hm : matchAt unionRE cs m = some e) : max e (m + 1) ≤ i := by
  have he := mem_of_matchAt hm
  obtain ⟨hwb_m, hpre_m, t', ht', rfl, _⟩ := unionRE_match_shape he
  obtain ⟨cU, hcU, hciU⟩ := ciPrefixAt_head
    (by rw [show s2l "UNION" = 'U' :: s2l "NION" from rfl] at hpre_i; exact hpre_i)
  by_cases hfar : m + 5 ≤ i
  · -- i is at or past the whitespace run; a non-whitespace char bounds it
    have hUws : isWsCh cU = false := ciEq_not_ws hciU (Or.inr rfl)
    have hge : m + 6 + t' ≤ i := by
      by_contra hlt
      have hk : i - (m + 5) < runLen cs .ws (m + 5) := by omega
      obtain ⟨w, hw, hws⟩ := runLen_test _ _ hk
      rw [show m + 5 + (i - (m + 5)) = i by omega] at hw
      rw [hw] at hcU
      injection hcU with hcc
      rw [hcc] at hws
      simp only [CharClass.test] at hws
      rw [hws] at hUws
      cases hUws
    have : m + 1 ≤ i := by omega
    omega
  · -- i would lie inside the literal `UNION`, impossible: only offset 0 is a U
    exfalso
    have hd : i - m = 1 ∨ i - m = 2 ∨ i - m = 3 ∨ i - m = 4 := by omega
    obtain ⟨hn, hi', ho⟩ := ciEq_U_unique hciU
    rcases hd with hdm | hdm | hdm | hdm
    · obtain ⟨c, hc, hcc⟩ := ciPrefixAt_getElem hpre_m 1 'N' (by decide)
      rw [show m + 1 = i by omega, hcU] at hc
      injection hc with hc
      rw [← hc] at hcc
      rw [hcc] at hn
      cases hn
    · obtain ⟨c, hc, hcc⟩ := ciPrefixAt_getElem hpre_m 2 'I' (by decide)
      rw [show m + 2 = i by omega, hcU] at hc
      injection hc with hc
      rw [← hc] at hcc
      rw [hcc] at hi'
      cases hi'
    · obtain ⟨c, hc, hcc⟩ := ciPrefixAt_getElem hpre_m 3 'O' (by decide)
      rw [show m + 3 = i by omega, hcU] at hc
      injection hc with hc
      rw [← hc] at hcc
      rw [hcc] at ho
      cases ho
    · obtain ⟨c, hc, hcc⟩ := ciPrefixAt_getElem hpre_m 4 'N' (by decide)
      rw [show m + 4 = i by omega, hcU] at hc
      injection hc with hc
      rw [← hc] at hcc
      rw [hcc] at hn
      cases hn

def unionTypeName : Str := s2l "union_instead_union_all"

def unionPat : PatternInfo := patterns.getD 4 defaultPattern

lemma unionPat_mem : unionPat ∈ patterns := by decide

lemma patterns_name_union :
    ∀ p ∈ patterns, p.name = unionTypeName → p = unionPat := by decide

lemma exists_ws_of_any {cs : Str} {n : Nat} (h : (cs[n]?.any isWsCh) = true) :
    ∃ w, cs[n]? = some w ∧ isWsCh w = true := by
  cases hx : cs[n]? with
  | none => rw [hx] at h; cases h
  | some w => rw [hx] at h; exact ⟨w, rfl, by simpa using h⟩

/-- C5 (amended): (1) if every case-insensitive word `UNION` in the text
is followed by exactly one whitespace character and then `ALL` at a word
boundary, the scan produces zero union-rule findings; (2) every
union-rule finding has severity MEDIUM; (3) a word `UNION` followed by at
least one whitespace character fires the rule — producing a MEDIUM
finding at the `UNION`'s line — whenever the whitespace run has length at
least two (the backtracking `\s+` then stops before `ALL`) or the text
after the run is not `ALL` at a word boundary, and the match position is
not inside a comment. -/
theorem C5_union_rule (path cs : Str) :
    ((∀ i < cs.length, isWordB cs i = true →
        ciPrefixAt cs i (s2l "UNION") = true →
        (cs[i + 5]?.any isWsCh) = true ∧
        ciPrefixAt cs (i + 6) (s2l "ALL") = true ∧ isWordB cs (i + 9) = true) →
      unionFindings path cs = [])
  ∧ (∀ f ∈ unionFindings path cs, f.severity = s2l "MEDIUM")
  ∧ (∀ i, isWordB cs i = true → ciPrefixAt cs i (s2l "UNION") = true →
      (cs[i + 5]?.any isWsCh) = true →
      (2 ≤ runLen cs .ws (i + 5) ∨
        ¬(ciPrefixAt cs (i + 5 + runLen cs .ws (i + 5)) (s2l "ALL") = true ∧
          isWordB cs (i + 5 + runLen cs .ws (i + 5) + 3) = true)) →
      isInComment cs i = false →
      ∃ f ∈ unionFindings path cs,
        f.line_number = countNl (cs.take i) + 1 ∧ f.severity = s2l "MEDIUM") := by
  refine ⟨?_, ?_, ?_⟩
  · -- (1) no findings when every UNION is single-space ALL
    intro hall
    rw [unionFindings]
    rw [List.filter_eq_nil_iff]
    intro f hf
    simp only [decide_eq_true_eq]
    intro hname
    obtain ⟨p, s, e, hp, hm, _, rfl⟩ := mem_scanFileIssues.mp hf
    have hpu : p = unionPat := patterns_name_union p hp hname
    subst hpu
    have hmatch := (pyFinditer_mem hm).2
    have he := mem_of_matchAt hmatch
    obtain ⟨hwb, hpre, t', ht', _, hfail⟩ := unionRE_match_shape he
    obtain ⟨cU, hcU, _⟩ := ciPrefixAt_head
      (by rw [show s2l "UNION" = 'U' :: s2l "NION" from rfl] at hpre; exact hpre)
    have hslt : s < cs.length := (List.getElem?_eq_some_iff.mp hcU).1
    obtain ⟨hany, hALL, hwb9⟩ := hall s hslt hwb hpre
    obtain ⟨w, hw, hws⟩ := exists_ws_of_any hany
    obtain ⟨a, ha, hciA⟩ := ciPrefixAt_head
      (by rw [show s2l "ALL" = 'A' :: s2l "LL" from rfl] at hALL; exact hALL)
    have hr : runLen cs .ws (s + 5) = 1 := by
      rw [runLen_succ_of_test hw (by simpa [CharClass.test] using hws),
        runLen_zero_of_fail (show cs[s + 5 + 1]? = some a by
          rw [show s + 5 + 1 = s + 6 by omega]; exact ha)
          (by simp [CharClass.test, ciEq_not_ws hciA (Or.inl rfl)])]
    rw [hr] at ht'
    have ht0 : t' = 0 := by omega
    rw [ht0] at hfail
    rw [ends_allRE_eq] at hfail
    rw [if_pos ⟨by rw [show s + 6 + 0 = s + 6 by omega]; exact hALL,
      by rw [show s + 6 + 0 + 3 = s + 9 by omega]; exact hwb9⟩] at hfail
    cases hfail
  · -- (2) MEDIUM severity
    intro f hf
    rw [unionFindings, List.mem_filter] at hf
    obtain ⟨hscan, hname⟩ := hf
    simp only [decide_eq_true_eq] at hname
    obtain ⟨p, s, e, hp, _, _, rfl⟩ := mem_scanFileIssues.mp hscan
    have hpu : p = unionPat := patterns_name_union p hp hname
    subst hpu
    rfl
  · -- (3) the firing condition produces a finding
    intro i hwb hpre hany hfire hcom
    obtain ⟨w, hw, hws⟩ := exists_ws_of_any hany
    have hr1 : 1 ≤ runLen cs .ws (i + 5) := by
      rw [runLen_succ_of_test hw (by simpa [CharClass.test] using hws)]
      omega
    set r := runLen cs .ws (i + 5) with hrdef
    -- find a surviving lookahead position
    have hkey : ∃ t', t' < r ∧
        ends (reSeq [litS "ALL", .wb]) cs (i + 6 + t') = [] := by
      by_cases hend : ciPrefixAt cs (i + 5 + r) (s2l "ALL") = true ∧
          isWordB cs (i + 5 + r + 3) = true
      · -- ALL\b after the whole run: the claim gives r ≥ 2; stop one early
        have hr2 : 2 ≤ r := by tauto
        refine ⟨r - 2, by omega, ?_⟩
        obtain ⟨c, hc, hct⟩ := @runLen_test cs .ws (r - 1) (i + 5) (by omega)
        rw [ends_allRE_eq, if_neg ?_]
        intro hcontra
        obtain ⟨a, ha, hciA⟩ := ciPrefixAt_head
          (by rw [show s2l "ALL" = 'A' :: s2l "LL" from rfl] at hcontra
              exact hcontra.1)
        rw [show i + 6 + (r - 2) = i + 5 + (r - 1) by omega] at ha
        rw [hc] at ha
        injection ha with ha
        have : isWsCh a = false := ciEq_not_ws hciA (Or.inl rfl)
        rw [← ha] at this
        simp only [CharClass.test] at hct
        rw [hct] at this
        cases this
      · refine ⟨r - 1, by omega, ?_⟩
        rw [ends_allRE_eq, if_neg ?_]
        rw [show i + 6 + (r - 1) = i + 5 + r by omega]
        exact hend
    obtain ⟨t', ht', hfail⟩ := hkey
    have ht'' : t' < runLen cs .ws (i + 5) := by rw [← hrdef]; exact ht'
    have hmem := unionRE_match_construct hwb hpre ht'' hfail
    obtain ⟨e, hmatch⟩ := matchAt_isSome_of_mem hmem
    obtain ⟨cU, hcU, _⟩ := ciPrefixAt_head
      (by rw [show s2l "UNION" = 'U' :: s2l "NION" from rfl] at hpre; exact hpre)
    have hile : i ≤ cs.length :=
      Nat.le_of_lt (List.getElem?_eq_some_iff.mp hcU).1
    have hfin : (i, e) ∈ pyFinditer unionRE cs :=
      pyFinditer_complete hile hmatch
        (fun m e' him hm' => union_no_swallow him hpre hm')
    have hscan : mkIssue path cs unionPat i ∈ scanFileIssues path cs :=
      mem_scanFileIssues.mpr ⟨unionPat, i, e, unionPat_mem, hfin, hcom, rfl⟩
    refine ⟨mkIssue path cs unionPat i, ?_, rfl, rfl⟩
    rw [unionFindings, List.mem_filter]
    exact ⟨hscan, by simp [mkIssue, unionPat]; rfl⟩

theorem C5_union_rule_witness :
    isWordB c5Text2 16 = true
  ∧ ciPrefixAt c5Text2 16 (s2l "UNION") = true
  ∧ (c5Text2[16 + 5]?.any isWsCh) = true
  ∧ 2 ≤ runLen c5Text2 .ws (16 + 5)
  ∧ isInComment c5Text2 16 = false
  ∧ ∃ f ∈ unionFindings examplePath c5Text2,
      f.line_number = countNl (c5Text2.take 16) + 1 ∧ f.severity = s2l "MEDIUM" :=
  ⟨by decide, by decide, by decide, by decide, by decide,
   (C5_union_rule examplePath c5Text2).2.2 16 (by decide) (by decide) (by decide)
     (Or.inl (by decide)) (by decide)⟩
